import Mathlib

/-!
# Download task service: registry, worker and snapshot

A shallow embedding of the Go program (`main.go`, `handlers.go`, `download.go`,
`storage.go`): the `File`/`Task` records, the global `tasks` map, the `POST /tasks`
handler, the worker's per-file critical sections, `loadSnapshot`, and `makeID`.

Modelling conventions.
* Go strings are Lean `String`s; statuses stay strings, as in the source.
* The map `tasks : map[string]*Task` is an association list looked up by key; every
  operation of the program keeps the keys distinct.  Each key owns one `*Task`, so a write
  through the worker's pointer `t` is `Registry.modify` at that key.  Entries of the live
  map are never nil (the handler stores a fresh `&Task`).  A decoded snapshot may hold a
  nil pointer (a JSON `null`), so its entries are `Option Task`, and `loadSnapshot`
  returns `none` where the Go code panics on the nil pointer.
* `time.Time` is a natural number (a UTC instant).
* The results of external calls (HTTP fetch, clock, file system, JSON decoding) are inputs.
* The worker is one goroutine: between its two critical sections on a file only request
  handlers touch the map.  `step` gives the atomic operations, `run` their sequences; the
  worker may take the pending files in any order, which covers every iteration order of
  the map.
* Writing the registry with `saveSnapshot` and decoding it again gives the same map
  (`savedSnapshot`), so a restart loads the registry that was saved.
-/

namespace TaskSvc

/-! ## SHA-1 and hex encoding (`crypto/sha1`, `encoding/hex`) -/

/-- Bytes of a Go string: its UTF-8 encoding. -/
def strBytes (s : String) : List Nat :=
  s.data.flatMap (fun c => (String.utf8EncodeChar c).map UInt8.toNat)

/-- Rotate a 32-bit word left by `n` bits. -/
def rotl32 (x n : Nat) : Nat := ((x <<< n) ||| (x >>> (32 - n))) % 2 ^ 32

/-- The low `n` bytes of `x`, most significant first. -/
def beBytes : Nat → Nat → List Nat
  | 0, _ => []
  | n + 1, x => (x / 256 ^ n) % 256 :: beBytes n x

/-- SHA-1 padding: the byte 0x80, zeros up to 56 modulo 64, and the bit length on eight
bytes. -/
def sha1Pad (msg : List Nat) : List Nat :=
  msg ++ 0x80 :: List.replicate ((119 - msg.length % 64) % 64) 0 ++ beBytes 8 (8 * msg.length)

/-- The big-endian value of a list of bytes. -/
def beWord (bs : List Nat) : Nat := bs.foldl (fun acc b => acc * 256 + b) 0

/-- The first `n` 32-bit words of a block. -/
def sha1Words : Nat → List Nat → List Nat
  | 0, _ => []
  | n + 1, bs => beWord (bs.take 4) :: sha1Words n (bs.drop 4)

/-- The message schedule extended by `n` words; the list is kept newest word first. -/
def sha1Extend : Nat → List Nat → List Nat
  | 0, w => w
  | n + 1, w =>
    sha1Extend n (rotl32 (w.getD 2 0 ^^^ w.getD 7 0 ^^^ w.getD 13 0 ^^^ w.getD 15 0) 1 :: w)

/-- The five 32-bit chaining words of SHA-1. -/
structure Sha1State where
  a : Nat
  b : Nat
  c : Nat
  d : Nat
  e : Nat
deriving DecidableEq, Repr

/-- The round function of round `t`. -/
def sha1F (t b c d : Nat) : Nat :=
  if t < 20 then (b &&& c) ||| ((b ^^^ (2 ^ 32 - 1)) &&& d)
  else if t < 40 then b ^^^ c ^^^ d
  else if t < 60 then (b &&& c) ||| (b &&& d) ||| (c &&& d)
  else b ^^^ c ^^^ d

/-- The round constant of round `t`. -/
def sha1K (t : Nat) : Nat :=
  if t < 20 then 0x5A827999 else if t < 40 then 0x6ED9EBA1
  else if t < 60 then 0x8F1BBCDC else 0xCA62C1D6

/-- One of the eighty rounds, on the round number and the schedule word. -/
def sha1Round (s : Sha1State) (tw : Nat × Nat) : Sha1State :=
  { a := (rotl32 s.a 5 + sha1F tw.1 s.b s.c s.d + s.e + sha1K tw.1 + tw.2) % 2 ^ 32,
    b := s.a, c := rotl32 s.b 30, d := s.c, e := s.d }

/-- The compression of one 64-byte block into the chaining state. -/
def sha1Block (h : Sha1State) (block : List Nat) : Sha1State :=
  let w := (sha1Extend 64 (sha1Words 16 block).reverse).reverse
  let s := (List.range 80).zip w |>.foldl sha1Round h
  { a := (h.a + s.a) % 2 ^ 32, b := (h.b + s.b) % 2 ^ 32, c := (h.c + s.c) % 2 ^ 32,
    d := (h.d + s.d) % 2 ^ 32, e := (h.e + s.e) % 2 ^ 32 }

/-- The compression of `n` consecutive blocks. -/
def sha1Blocks : Nat → Sha1State → List Nat → Sha1State
  | 0, h, _ => h
  | n + 1, h, bs => sha1Blocks n (sha1Block h (bs.take 64)) (bs.drop 64)

/-- SHA-1 of a byte string: the twenty digest bytes (`h.Sum(nil)` after the writes). -/
def sha1 (msg : List Nat) : List Nat :=
  let p := sha1Pad msg
  let h := sha1Blocks (p.length / 64)
    { a := 0x67452301, b := 0xEFCDAB89, c := 0x98BADCFE, d := 0x10325476, e := 0xC3D2E1F0 } p
  beBytes 4 h.a ++ beBytes 4 h.b ++ beBytes 4 h.c ++ beBytes 4 h.d ++ beBytes 4 h.e

/-- One lower-case hexadecimal digit. -/
def hexDigit (n : Nat) : Char := "0123456789abcdef".data.getD n '0'

/-- The function `hex.EncodeToString`. -/
def hexEncode (bs : List Nat) : String :=
  String.mk (bs.flatMap (fun b => [hexDigit (b / 16), hexDigit (b % 16)]))

/-! ## Data model (`main.go`) -/

/-- File: one URL of a task and the state of its download. -/
structure File where
  URL : String
  Status : String
  Path : String
  Error : String
deriving DecidableEq, Repr

/-- Task: a batch of files to download. -/
structure Task where
  ID : String
  CreatedAt : Nat
  Status : String
  Files : List File
deriving DecidableEq, Repr

/-- The global `tasks` map. -/
abbrev Registry := List (String × Task)

/-- Map lookup `tasks[k]`. -/
def Registry.get : Registry → String → Option Task
  | [], _ => none
  | (k', t) :: m, k => if k' = k then some t else Registry.get m k

/-- Map assignment `tasks[k] = v`. -/
def Registry.set : Registry → String → Task → Registry
  | [], k, v => [(k, v)]
  | (k', t) :: m, k, v => if k' = k then (k, v) :: m else (k', t) :: Registry.set m k v

/-- In-place update of the task stored under `k` (a write through the pointer `tasks[k]`). -/
def Registry.modify : Registry → String → (Task → Task) → Registry
  | [], _, _ => []
  | (k', t) :: m, k, g => if k' = k then (k', g t) :: m else (k', t) :: Registry.modify m k g

/-- The keys of the map. -/
def Registry.keys (m : Registry) : List String := m.map Prod.fst

/-- In-place update of `Files[i]`. -/
def modifyFile (fs : List File) (i : Nat) (g : File → File) : List File :=
  match fs[i]? with
  | some f => fs.set i (g f)
  | none => fs

/-! ## `makeID` (`download.go`) -/

/-- The function `makeID`: every URL is written to the running SHA-1 hash, in order, and
the digest is rendered in hex. -/
def makeID (urls : List String) : String :=
  hexEncode (sha1 (urls.foldl (fun h u => h ++ strBytes u) []))

/-! ## `POST /tasks` (`handlers.go`) -/

/-- An incoming request: the method, and the result of decoding the JSON body into
`req.URLs` (`none` when decoding fails). -/
structure Request where
  Method : String
  Body : Option (List String)
deriving DecidableEq, Repr

/-- The response: status code and the one-entry JSON object written by `writeJSON`
(`none` when only the header is written). -/
structure Response where
  code : Nat
  body : Option (String × String)
deriving DecidableEq, Repr

/-- The handler of `/tasks`, as a function of the registry, the request and the clock. -/
def handleTasks (tasks : Registry) (r : Request) (now : Nat) : Registry × Response :=
  if r.Method ≠ "POST" then (tasks, ⟨405, none⟩)
  else
    match r.Body with
    | none => (tasks, ⟨400, some ("error", "invalid json")⟩)
    | some urls =>
      if urls.length = 0 then (tasks, ⟨400, some ("error", "no urls")⟩)
      else
        let id := makeID urls
        let tasks1 :=
          match tasks.get id with
          | some _ => tasks
          | none =>
            urls.foldl
              (fun acc url => acc.modify id fun t =>
                { t with Files := t.Files ++ [{ URL := url, Status := "pending", Path := "", Error := "" }] })
              (tasks.set id { ID := id, CreatedAt := now, Status := "pending", Files := [] })
        (tasks1, ⟨202, some ("id", id)⟩)

/-! ## `download` and the worker (`download.go`) -/

/-- What `download` returns: the path and the error (`none` for `nil`). -/
structure Outcome where
  path : String
  err : Option String
deriving DecidableEq, Repr

/-- The results of the external calls one `download` makes. -/
structure Fetch where
  getErr : Option String
  statusCode : Nat
  status : String
  baseName : String
  timestamp : String
  createErr : Option String
  copyErr : Option String
deriving DecidableEq, Repr

/-- One `download`, given the results of its external calls. -/
def download (x : Fetch) : Outcome :=
  match x.getErr with
  | some e => ⟨"", some e⟩
  | none =>
    if x.statusCode < 200 ∨ x.statusCode ≥ 300 then ⟨"", some x.status⟩
    else
      let baseName :=
        if x.baseName = "" ∨ x.baseName = "/" ∨ x.baseName = "." then "download" else x.baseName
      let uniqueName := x.timestamp ++ "-" ++ baseName
      let path := "downloads/" ++ uniqueName
      match x.createErr with
      | some e => ⟨"", some e⟩
      | none => ⟨path, x.copyErr⟩

/-- The first critical section of the worker: file `i` becomes running, and a pending
task becomes running. -/
def markRunning (t : Task) (i : Nat) : Task :=
  let t1 := { t with Files := modifyFile t.Files i fun f => { f with Status := "running" } }
  if t1.Status = "pending" then { t1 with Status := "running" } else t1

/-- The loop that checks whether every file is done. -/
def allDone : List File → Bool
  | [] => true
  | f :: fs => if f.Status ≠ "done" then false else allDone fs

/-- The second critical section of the worker: the outcome of the download of file `i`
is written, then the task status is recomputed. -/
def recordOutcome (t : Task) (i : Nat) (o : Outcome) : Task :=
  let t1 :=
    match o.err with
    | some msg =>
      { t with Files := modifyFile t.Files i fun f => { f with Status := "failed", Error := msg } }
    | none =>
      { t with Files := modifyFile t.Files i fun f => { f with Status := "done", Path := o.path } }
  if allDone t1.Files then { t1 with Status := "done" } else t1

/-- The body of the worker's inner loop for file `i` of the task under `k`; the outcome
of the download is given. -/
def workerFile (tasks : Registry) (k : String) (i : Nat) (o : Outcome) : Registry :=
  match tasks.get k with
  | none => tasks
  | some t =>
    match t.Files[i]? with
    | none => tasks
    | some f =>
      if f.Status ≠ "pending" then tasks
      else (tasks.modify k fun t => markRunning t i).modify k fun t => recordOutcome t i o

/-- The worker's loop over the files of the task under `k`. -/
def workerTask (outcomes : String → Nat → Outcome) (tasks : Registry) (k : String) : Registry :=
  match tasks.get k with
  | none => tasks
  | some t =>
    (List.range t.Files.length).foldl (fun acc i => workerFile acc k i (outcomes k i)) tasks

/-- One pass of the worker over `taskList`, the tasks copied from the map at the start of
the pass (in the map's iteration order); `outcomes k i` is what the download of file `i`
of task `k` returns. -/
def workerPass (outcomes : String → Nat → Outcome) (taskList : List String) (tasks : Registry) :
    Registry :=
  taskList.foldl (workerTask outcomes) tasks

/-! ## Snapshots (`storage.go`) -/

/-- What reading and decoding the snapshot file gives; an entry of the decoded
`map[string]*Task` is `none` for a nil pointer (a JSON `null`). -/
inductive Snapshot where
  | unreadable
  | invalid (err : String)
  | parsed (m : List (String × Option Task))
deriving DecidableEq, Repr

/-- The reset of a running file on load. -/
def resetFile (f : File) : File :=
  if f.Status = "running" then { f with Status := "pending" } else f

/-- The reset applied to one snapshot task on load. -/
def resetTask (v : Task) : Task :=
  let v1 := { v with Files := v.Files.map resetFile }
  if v1.Status = "running" then { v1 with Status := "pending" } else v1

/-- The loop of `loadSnapshot` over the decoded entries, in the order the map yields them;
`none` is the panic of `v.Files` on a nil `v`. -/
def loadEntries : List (String × Option Task) → Registry → Option Registry
  | [], tasks => some tasks
  | (_, none) :: _, _ => none
  | (k, some v) :: m, tasks => loadEntries m (tasks.set k (resetTask v))

/-- The function `loadSnapshot`: the new registry and the returned error, or `none` when
it panics. -/
def loadSnapshot (tasks : Registry) : Snapshot → Option (Registry × Option String)
  | .unreadable => some (tasks, none)
  | .invalid err => some (tasks, some err)
  | .parsed m => (loadEntries m tasks).map fun r => (r, none)

/-- The snapshot file that `saveSnapshot` writes for a registry, read back and decoded. -/
def savedSnapshot (tasks : Registry) : Snapshot :=
  .parsed (tasks.map fun kt => (kt.1, some kt.2))

/-! ## The service as a transition system -/

/-- A state of the running service: the registry, and the file the worker has marked
running and is downloading, if any. -/
structure State where
  tasks : Registry
  inflight : Option (String × Nat)
deriving DecidableEq, Repr

/-- The atomic operations on the registry. -/
inductive Op where
  /-- A request to `/tasks` is handled. -/
  | request (r : Request) (now : Nat)
  /-- The worker finds file `i` of task `k` pending and marks it running. -/
  | mark (k : String) (i : Nat)
  /-- The download in flight returns and the worker records its outcome. -/
  | record (o : Outcome)
  /-- The registry is saved, the process stops, and a new process loads the snapshot. -/
  | restart
deriving DecidableEq, Repr

/-- One operation; `none` when it cannot happen in this state. -/
def step (s : State) : Op → Option State
  | .request r now => some { s with tasks := (handleTasks s.tasks r now).1 }
  | .mark k i =>
    match s.inflight, s.tasks.get k with
    | none, some t =>
      match t.Files[i]? with
      | some f =>
        if f.Status = "pending" then
          some { tasks := s.tasks.modify k fun t => markRunning t i, inflight := some (k, i) }
        else none
      | none => none
    | _, _ => none
  | .record o =>
    match s.inflight with
    | some (k, i) =>
      some { tasks := s.tasks.modify k fun t => recordOutcome t i o, inflight := none }
    | none => none
  | .restart =>
    (loadSnapshot [] (savedSnapshot s.tasks)).map fun r => { tasks := r.1, inflight := none }

/-- A sequence of operations. -/
def run (s : State) : List Op → Option State
  | [] => some s
  | op :: ops => (step s op).bind fun s1 => run s1 ops

/-- The service at first start: no snapshot file, empty registry, idle worker. -/
def State.init : State := { tasks := [], inflight := none }

/-- The number of files with status running, over all tasks. -/
def runningCount (m : Registry) : Nat :=
  (m.map fun kt => kt.2.Files.countP fun f => f.Status = "running").sum

/-! ## Auxiliary notions for the proofs -/

/-- The file record appended for one requested URL. -/
def pendingFile (url : String) : File :=
  { URL := url, Status := "pending", Path := "", Error := "" }

/-- The task a creation request leaves in the map once all its files are appended. -/
def newTask (urls : List String) (now : Nat) : Task :=
  { ID := makeID urls, CreatedAt := now, Status := "pending", Files := urls.map pendingFile }

/-- The registry after loading a snapshot whose entries are all tasks. -/
def loadAll (tasks m : Registry) : Registry :=
  m.foldl (fun acc kv => acc.set kv.1 (resetTask kv.2)) tasks

/-- The number of running files of one task. -/
def runningFiles (t : Task) : Nat := t.Files.countP fun f => f.Status = "running"

/-- What holds of every task the service can hold. -/
structure TaskOK (t : Task) : Prop where
  done_iff : t.Status = "done" ↔ ∀ f ∈ t.Files, f.Status = "done"
  status : t.Status = "pending" ∨ t.Status = "running"  ∨ t.Status = "done"
  fresh : ∀ f ∈ t.Files, f.Status = "pending" ∨ f.Status = "running" → f.Path = "" ∧ f.Error = ""

/-- The file in flight, if any, exists and is running. -/
def InflightOK (s : State) : Prop :=
  ∀ k i, s.inflight = some (k, i) →
    ∃ t f, s.tasks.get k = some t ∧ t.Files[i]? = some f ∧ f.Status = "running"

/-- The invariant of the states reachable from the first start. -/
def Inv (s : State) : Prop :=
  (∀ kt ∈ s.tasks, TaskOK kt.2) ∧ InflightOK s ∧ s.tasks.keys.Nodup

/-- The invariant behind single-flight: the running files are exactly the file in flight. -/
def SingleFlight (s : State) : Prop :=
  InflightOK s ∧ (s.inflight = none → runningCount s.tasks = 0) ∧
    (s.inflight ≠ none → runningCount s.tasks = 1)

/-- The worker's inner loop body on the task itself: skip a file that is not pending,
otherwise mark it running and record the outcome. -/
def processFile (t : Task) (i : Nat) (o : Outcome) : Task :=
  match t.Files[i]? with
  | none => t
  | some f => if f.Status ≠ "pending" then t else recordOutcome (markRunning t i) i o

/-- The file record the worker leaves for a file it finds in state `f`, when the download
returns `o`. -/
def settle (f : File) (o : Outcome) : File :=
  if f.Status = "pending" then
    match o.err with
    | some msg => { f with Status := "failed", Error := msg }
    | none => { f with Status := "done", Path := o.path }
  else f

/-! ## Lemmas on the registry -/

theorem Registry.get_modify (m : Registry) (k : String) (g : Task → Task) (k' : String) :
    (m.modify k g).get k' = if k' = k then (m.get k).map g else m.get k' := by
  induction m with
  | nil => simp [Registry.modify, Registry.get]
  | cons kt m ih =>
    obtain ⟨k0, t0⟩ := kt
    by_cases h0 : k0 = k
    · by_cases h1 : k' = k
      · subst h0 h1; simp [Registry.modify, Registry.get]
      · subst h0
        have h2 : ¬ k0 = k' := fun h => h1 h.symm
        simp [Registry.modify, Registry.get, h1, h2]
    · by_cases h1 : k' = k
      · subst h1; simp [Registry.modify, Registry.get, h0, ih]
      · by_cases h2 : k0 = k' <;> simp [Registry.modify, Registry.get, h0, h1, h2, ih]

theorem Registry.get_set (m : Registry) (k : String) (v : Task) (k' : String) :
    (m.set k v).get k' = if k' = k then some v else m.get k' := by
  induction m with
  | nil =>
    by_cases h1 : k' = k
    · subst h1; simp [Registry.set, Registry.get]
    · have h2 : ¬ k = k' := fun h => h1 h.symm
      simp [Registry.set, Registry.get, h1, h2]
  | cons kt m ih =>
    obtain ⟨k0, t0⟩ := kt
    by_cases h0 : k0 = k
    · by_cases h1 : k' = k
      · subst h0 h1; simp [Registry.set, Registry.get]
      · subst h0
        have h2 : ¬ k0 = k' := fun h => h1 h.symm
        simp [Registry.set, Registry.get, h1, h2]
    · by_cases h1 : k' = k
      · subst h1; simp [Registry.set, Registry.get, h0, ih]
      · by_cases h2 : k0 = k' <;> simp [Registry.set, Registry.get, h0, h1, h2, ih]

theorem Registry.set_of_get_none (m : Registry) (k : String) (v : Task) (h : m.get k = none) :
    m.set k v = m ++ [(k, v)] := by
  induction m with
  | nil => rfl
  | cons kt m ih =>
    obtain ⟨k0, t0⟩ := kt
    by_cases h0 : k0 = k
    · simp [Registry.get, h0] at h
    · simp only [Registry.get, h0, if_false] at h
      simp [Registry.set, h0, ih h]

theorem Registry.modify_append_of_get_none (m : Registry) (k : String) (t : Task)
    (g : Task → Task) (h : m.get k = none) :
    Registry.modify (m ++ [(k, t)]) k g = m ++ [(k, g t)] := by
  induction m with
  | nil => simp [Registry.modify]
  | cons kt m ih =>
    obtain ⟨k0, t0⟩ := kt
    by_cases h0 : k0 = k
    · simp [Registry.get, h0] at h
    · simp only [Registry.get, h0, if_false] at h
      simp [Registry.modify, h0, ih h]

theorem Registry.get_append_single (m : Registry) (k : String) (t : Task) (k' : String) :
    Registry.get (m ++ [(k, t)]) k' =
      match m.get k' with
      | some t' => some t'
      | none => if k = k' then some t else none := by
  induction m with
  | nil => simp [Registry.get]
  | cons kt m ih =>
    obtain ⟨k0, t0⟩ := kt
    by_cases h0 : k0 = k' <;> simp [Registry.get, h0, ih]

theorem Registry.get_none_iff (m : Registry) (k : String) : m.get k = none ↔ k ∉ m.keys := by
  induction m with
  | nil => simp [Registry.get, Registry.keys]
  | cons kt m ih =>
    obtain ⟨k0, t0⟩ := kt
    by_cases h0 : k0 = k
    · subst h0; simp [Registry.get, Registry.keys]
    · have h1 : ¬ k = k0 := fun h => h0 h.symm
      simp [Registry.get, Registry.keys, h0, h1] at ih ⊢
      exact ih

theorem Registry.mem_of_get (m : Registry) (k : String) (t : Task) (h : m.get k = some t) :
    (k, t) ∈ m := by
  induction m with
  | nil => simp [Registry.get] at h
  | cons kt m ih =>
    obtain ⟨k0, t0⟩ := kt
    by_cases h0 : k0 = k
    · subst h0; simp [Registry.get] at h; simp [h]
    · simp only [Registry.get, h0, if_false] at h
      exact List.mem_cons_of_mem _ (ih h)

theorem Registry.get_of_mem (m : Registry) (k : String) (t : Task) (hn : m.keys.Nodup)
    (h : (k, t) ∈ m) : m.get k = some t := by
  induction m with
  | nil => simp at h
  | cons kt m ih =>
    obtain ⟨k0, t0⟩ := kt
    simp only [Registry.keys, List.map_cons, List.nodup_cons] at hn
    rcases List.mem_cons.1 h with h1 | h1
    · cases h1; simp [Registry.get]
    · have h0 : ¬ k0 = k := by
        intro e; subst e
        exact hn.1 (List.mem_map.2 ⟨(k0, t), h1, rfl⟩)
      simp only [Registry.get, h0, if_false]
      exact ih hn.2 h1

/-! ## The handler in closed form -/

theorem foldl_append_files (id : String) (urls : List String) (m : Registry) (t : Task)
    (h : m.get id = none) :
    urls.foldl
        (fun acc url => Registry.modify acc id fun t =>
          { t with Files := t.Files ++ [{ URL := url, Status := "pending", Path := "", Error := "" }] })
        (m ++ [(id, t)])
      = m ++ [(id, { t with Files := t.Files ++ urls.map pendingFile })] := by
  induction urls generalizing t with
  | nil => simp
  | cons u us ih =>
    simp only [List.foldl_cons, List.map_cons]
    rw [Registry.modify_append_of_get_none m id t _ h, ih]
    simp [pendingFile]

theorem handleTasks_post_new (tasks : Registry) (urls : List String) (now : Nat)
    (hu : urls ≠ []) (h : tasks.get (makeID urls) = none) :
    handleTasks tasks ⟨"POST", some urls⟩ now =
      (tasks ++ [(makeID urls, newTask urls now)], ⟨202, some ("id", makeID urls)⟩) := by
  have hl : urls.length ≠ 0 := by simpa using hu
  simp only [handleTasks, ne_eq, not_true_eq_false, if_false, hl, h]
  rw [Registry.set_of_get_none _ _ _ h, foldl_append_files _ _ _ _ h]
  simp [newTask]

theorem handleTasks_post_old (tasks : Registry) (urls : List String) (now : Nat) (t : Task)
    (hu : urls ≠ []) (h : tasks.get (makeID urls) = some t) :
    handleTasks tasks ⟨"POST", some urls⟩ now = (tasks, ⟨202, some ("id", makeID urls)⟩) := by
  have hl : urls.length ≠ 0 := by simpa using hu
  simp only [handleTasks, ne_eq, not_true_eq_false, if_false, hl, h]

theorem handleTasks_cases (tasks : Registry) (r : Request) (now : Nat) :
    (handleTasks tasks r now).1 = tasks ∨
      ∃ urls, urls ≠ [] ∧ tasks.get (makeID urls) = none ∧
        (handleTasks tasks r now).1 = tasks ++ [(makeID urls, newTask urls now)] := by
  obtain ⟨meth, body⟩ := r
  by_cases hm : meth = "POST"
  · subst hm
    cases body with
    | none => left; simp [handleTasks]
    | some urls =>
      by_cases hu : urls = []
      · left; subst hu; simp [handleTasks]
      · cases h : tasks.get (makeID urls) with
        | none => right; exact ⟨urls, hu, h, by rw [handleTasks_post_new _ _ _ hu h]⟩
        | some t => left; rw [handleTasks_post_old _ _ _ t hu h]
  · left; simp [handleTasks, hm]

theorem handleTasks_get_some (tasks : Registry) (r : Request) (now : Nat) (k : String) (t : Task)
    (h : tasks.get k = some t) : (handleTasks tasks r now).1.get k = some t := by
  rcases handleTasks_cases tasks r now with e | ⟨urls, _, _, e⟩
  · rw [e]; exact h
  · rw [e, Registry.get_append_single, h]

/-! ## Lemmas on file lists and the worker's critical sections -/

theorem modifyFile_getElem? (fs : List File) (i : Nat) (g : File → File) (j : Nat) :
    (modifyFile fs i g)[j]? = if j = i then (fs[i]?).map g else fs[j]? := by
  unfold modifyFile
  cases h : fs[i]? with
  | none =>
    by_cases hj : j = i
    · subst hj; simp [h]
    · simp [hj]
  | some f =>
    have hi : i < fs.length := by
      rcases List.getElem?_eq_some.1 h with ⟨hi, _⟩
      exact hi
    by_cases hj : j = i
    · subst hj; simp [List.getElem?_set, hi]
    · have hj2 : ¬ i = j := fun e => hj e.symm
      simp [List.getElem?_set, hj, hj2]

theorem mem_modifyFile (fs : List File) (i : Nat) (g : File → File) (f' : File)
    (h : f' ∈ modifyFile fs i g) : f' ∈ fs ∨ ∃ f, fs[i]? = some f ∧ f' = g f := by
  rcases List.mem_iff_getElem?.1 h with ⟨j, hj⟩
  rw [modifyFile_getElem?] at hj
  by_cases e : j = i
  · rw [if_pos e] at hj
    cases h2 : fs[i]? with
    | none => rw [h2] at hj; simp at hj
    | some f =>
      rw [h2] at hj
      right
      exact ⟨f, rfl, by simpa using hj.symm⟩
  · rw [if_neg e] at hj
    exact Or.inl (List.mem_iff_getElem?.2 ⟨j, hj⟩)

theorem allDone_iff (fs : List File) : allDone fs = true ↔ ∀ f ∈ fs, f.Status = "done" := by
  induction fs with
  | nil => simp [allDone]
  | cons f fs ih =>
    by_cases h : f.Status = "done" <;> simp [allDone, h, ih]

theorem TaskOK_newTask (urls : List String) (now : Nat) (hu : urls ≠ []) :
    TaskOK (newTask urls now) := by
  refine ⟨?_, Or.inl rfl, ?_⟩
  · constructor
    · intro h; simp [newTask] at h
    · intro h
      obtain ⟨u, us, rfl⟩ := List.exists_cons_of_ne_nil hu
      have := h (pendingFile u) (by simp [newTask])
      simp [pendingFile] at this
  · intro f hf _
    simp only [newTask, List.mem_map] at hf
    obtain ⟨u, _, rfl⟩ := hf
    exact ⟨rfl, rfl⟩

theorem TaskOK_markRunning (t : Task) (i : Nat) (f : File) (ht : TaskOK t)
    (hf : t.Files[i]? = some f) (hp : f.Status = "pending") : TaskOK (markRunning t i) := by
  have hmem : f ∈ t.Files := List.mem_iff_getElem?.2 ⟨i, hf⟩
  have hnd : t.Status ≠ "done" := by
    intro h
    have := ht.done_iff.1 h f hmem
    rw [hp] at this
    exact absurd this (by decide)
  have hfiles : (markRunning t i).Files
      = modifyFile t.Files i fun f => { f with Status := "running" } := by
    unfold markRunning; dsimp only; split <;> rfl
  have hrun : ({ f with Status := "running" } : File) ∈ (markRunning t i).Files := by
    rw [hfiles]
    apply List.mem_iff_getElem?.2
    exact ⟨i, by rw [modifyFile_getElem?, if_pos rfl, hf]; rfl⟩
  have hst : (markRunning t i).Status = "running" ∨ (markRunning t i).Status = t.Status := by
    unfold markRunning; dsimp only; split
    · left; rfl
    · right; rfl
  have hst2 : (markRunning t i).Status ≠ "done" := by
    rcases hst with h | h
    · rw [h]; decide
    · rw [h]; exact hnd
  refine ⟨?_, ?_, ?_⟩
  · constructor
    · intro h; exact absurd h hst2
    · intro h
      have := h _ hrun
      simp at this
  · rcases hst with h | h
    · exact Or.inr (Or.inl h)
    · rw [h]; exact ht.status
  · intro f' hf' hs
    rw [hfiles] at hf'
    rcases mem_modifyFile _ _ _ _ hf' with h | ⟨f0, h0, rfl⟩
    · exact ht.fresh f' h hs
    · rw [hf] at h0
      cases h0
      exact ht.fresh f hmem (Or.inl hp)

theorem recordOutcome_files (t : Task) (i : Nat) (o : Outcome) :
    (recordOutcome t i o).Files = modifyFile t.Files i fun f =>
      match o.err with
      | some msg => { f with Status := "failed", Error := msg }
      | none => { f with Status := "done", Path := o.path } := by
  unfold recordOutcome
  cases o.err <;> dsimp only <;> split <;> rfl

theorem recordOutcome_status (t : Task) (i : Nat) (o : Outcome) :
    (recordOutcome t i o).Status =
      if allDone (recordOutcome t i o).Files then "done" else t.Status := by
  rw [recordOutcome_files]
  unfold recordOutcome
  cases o.err <;> dsimp only <;> split <;> rfl

theorem TaskOK_recordOutcome (t : Task) (i : Nat) (f : File) (o : Outcome) (ht : TaskOK t)
    (hf : t.Files[i]? = some f) (hr : f.Status = "running") : TaskOK (recordOutcome t i o) := by
  have hmem : f ∈ t.Files := List.mem_iff_getElem?.2 ⟨i, hf⟩
  have hnd : t.Status ≠ "done" := by
    intro h
    have := ht.done_iff.1 h f hmem
    rw [hr] at this
    exact absurd this (by decide)
  refine ⟨?_, ?_, ?_⟩
  · rw [recordOutcome_status]
    by_cases hall : allDone (recordOutcome t i o).Files = true
    · simp only [hall, if_true, true_iff]
      exact (allDone_iff _).1 hall
    · simp only [hall]
      constructor
      · intro h; exact absurd h hnd
      · intro h; exact absurd ((allDone_iff _).2 h) hall
  · rw [recordOutcome_status]
    split
    · exact Or.inr (Or.inr rfl)
    · exact ht.status
  · intro f' hf' hs
    rw [recordOutcome_files] at hf'
    rcases mem_modifyFile _ _ _ _ hf' with h | ⟨f0, _, rfl⟩
    · exact ht.fresh f' h hs
    · cases he : o.err with
      | none => rw [he] at hs; rcases hs with h | h <;> simp at h
      | some msg => rw [he] at hs; rcases hs with h | h <;> simp at h

theorem resetFile_status (f : File) :
    (resetFile f).Status = if f.Status = "running" then "pending" else f.Status := by
  unfold resetFile; split <;> rfl

theorem resetFile_fields (f : File) :
    (resetFile f).URL = f.URL ∧ (resetFile f).Path = f.Path ∧ (resetFile f).Error = f.Error := by
  unfold resetFile; split <;> exact ⟨rfl, rfl, rfl⟩

theorem resetTask_files (t : Task) : (resetTask t).Files = t.Files.map resetFile := by
  unfold resetTask; dsimp only; split <;> rfl

theorem resetTask_status (t : Task) :
    (resetTask t).Status = if t.Status = "running" then "pending" else t.Status := by
  unfold resetTask; dsimp only; split <;> rfl

theorem TaskOK_resetTask (t : Task) (ht : TaskOK t) : TaskOK (resetTask t) := by
  have hd : ∀ f : File, (resetFile f).Status = "done" ↔ f.Status = "done" := by
    intro f
    rw [resetFile_status]
    by_cases h : f.Status = "running"
    · simp only [h, if_true]
      constructor <;> intro h2 <;> exact absurd h2 (by decide)
    · simp only [h, if_false]
  refine ⟨?_, ?_, ?_⟩
  · rw [resetTask_status, resetTask_files]
    by_cases h : t.Status = "running"
    · simp only [h, if_true]
      constructor
      · intro h2; exact absurd h2 (by decide)
      · intro h2
        have : t.Status = "done" := ht.done_iff.2 fun f hf =>
          (hd f).1 (h2 _ (List.mem_map.2 ⟨f, hf, rfl⟩))
        rw [h] at this
        exact absurd this (by decide)
    · simp only [h, if_false]
      rw [ht.done_iff]
      constructor
      · intro h2 f hf
        obtain ⟨f0, hf0, rfl⟩ := List.mem_map.1 hf
        exact (hd f0).2 (h2 f0 hf0)
      · intro h2 f hf
        exact (hd f).1 (h2 _ (List.mem_map.2 ⟨f, hf, rfl⟩))
  · rw [resetTask_status]
    split
    · exact Or.inl rfl
    · exact ht.status
  · intro f hf hs
    rw [resetTask_files] at hf
    obtain ⟨f0, hf0, rfl⟩ := List.mem_map.1 hf
    obtain ⟨_, hp, he⟩ := resetFile_fields f0
    rw [hp, he]
    have h3 : f0.Status = "pending" ∨ f0.Status = "running" := by
      by_cases h : f0.Status = "running"
      · exact Or.inr h
      · rw [resetFile_status, if_neg h] at hs
        exact hs
    exact ht.fresh f0 hf0 h3

/-! ## The invariant is kept by every operation -/

theorem Registry.mem_modify (m : Registry) (k : String) (g : Task → Task) (kt : String × Task)
    (h : kt ∈ m.modify k g) : kt ∈ m ∨ ∃ t, m.get k = some t ∧ kt = (k, g t) := by
  induction m with
  | nil => simp [Registry.modify] at h
  | cons hd m ih =>
    obtain ⟨k0, t0⟩ := hd
    by_cases h0 : k0 = k
    · subst h0
      simp only [Registry.modify, if_true, List.mem_cons] at h
      rcases h with h | h
      · right; exact ⟨t0, by simp [Registry.get], h⟩
      · left; exact List.mem_cons_of_mem _ h
    · simp only [Registry.modify, h0, if_false, List.mem_cons] at h
      rcases h with h | h
      · left; rw [h]; exact List.mem_cons_self _ _
      · rcases ih h with h2 | ⟨t, h2, h3⟩
        · left; exact List.mem_cons_of_mem _ h2
        · right; exact ⟨t, by simp [Registry.get, h0, h2], h3⟩

theorem Registry.mem_set (m : Registry) (k : String) (v : Task) (kt : String × Task)
    (h : kt ∈ m.set k v) : kt ∈ m ∨ kt = (k, v) := by
  induction m with
  | nil => right; simpa [Registry.set] using h
  | cons hd m ih =>
    obtain ⟨k0, t0⟩ := hd
    by_cases h0 : k0 = k
    · simp only [Registry.set, h0, if_true, List.mem_cons] at h
      rcases h with h | h
      · right; exact h
      · left; exact List.mem_cons_of_mem _ h
    · simp only [Registry.set, h0, if_false, List.mem_cons] at h
      rcases h with h | h
      · left; rw [h]; exact List.mem_cons_self _ _
      · rcases ih h with h2 | h2
        · left; exact List.mem_cons_of_mem _ h2
        · right; exact h2

theorem mem_loadAll (tasks m : Registry) (kt : String × Task) (h : kt ∈ loadAll tasks m) :
    kt ∈ tasks ∨ ∃ kv ∈ m, kt = (kv.1, resetTask kv.2) := by
  simp only [loadAll] at h
  induction m generalizing tasks with
  | nil => left; simpa using h
  | cons hd m ih =>
    simp only [List.foldl_cons] at h
    rcases ih _ h with h2 | ⟨kv, hkv, e⟩
    · rcases Registry.mem_set _ _ _ _ h2 with h3 | h3
      · left; exact h3
      · right; exact ⟨hd, List.mem_cons_self _ _, h3⟩
    · right; exact ⟨kv, List.mem_cons_of_mem _ hkv, e⟩

theorem mem_loadEntries (m : List (String × Option Task)) (tasks r : Registry)
    (kt : String × Task) (hl : loadEntries m tasks = some r) (h : kt ∈ r) :
    kt ∈ tasks ∨ ∃ k v, (k, some v) ∈ m ∧ kt = (k, resetTask v) := by
  induction m generalizing tasks with
  | nil =>
    simp only [loadEntries, Option.some.injEq] at hl
    subst hl; exact Or.inl h
  | cons hd m ih =>
    obtain ⟨k0, v0⟩ := hd
    cases v0 with
    | none => simp [loadEntries] at hl
    | some v =>
      simp only [loadEntries] at hl
      rcases ih _ hl with h2 | ⟨k, v1, hkv, e⟩
      · rcases Registry.mem_set _ _ _ _ h2 with h3 | h3
        · exact Or.inl h3
        · exact Or.inr ⟨k0, v, List.mem_cons_self _ _, h3⟩
      · exact Or.inr ⟨k, v1, List.mem_cons_of_mem _ hkv, e⟩

theorem loadEntries_saved (m tasks : Registry) :
    loadEntries (m.map fun kt => (kt.1, some kt.2)) tasks = some (loadAll tasks m) := by
  induction m generalizing tasks with
  | nil => rfl
  | cons hd m ih =>
    simp only [List.map_cons, loadEntries, ih]
    rfl

theorem loadSnapshot_saved (tasks m : Registry) :
    loadSnapshot tasks (savedSnapshot m) = some (loadAll tasks m, none) := by
  simp [loadSnapshot, savedSnapshot, loadEntries_saved]

theorem step_restart (s : State) :
    step s .restart = some { tasks := loadAll [] s.tasks, inflight := none } := by
  simp [step, loadSnapshot_saved]

theorem Registry.keys_modify (m : Registry) (k : String) (g : Task → Task) :
    (m.modify k g).keys = m.keys := by
  induction m with
  | nil => rfl
  | cons hd m ih =>
    obtain ⟨k0, t0⟩ := hd
    by_cases h0 : k0 = k
    · simp [Registry.modify, Registry.keys, h0]
    · simp only [Registry.keys] at ih
      simp [Registry.modify, Registry.keys, h0, ih]

theorem Registry.nodup_append_single (m : Registry) (k : String) (t : Task)
    (hn : m.keys.Nodup) (h : m.get k = none) : Registry.keys (m ++ [(k, t)]) |>.Nodup := by
  have hk : k ∉ m.keys := (Registry.get_none_iff m k).1 h
  simp only [Registry.keys, List.map_append, List.map_cons, List.map_nil] at hk ⊢
  rw [List.nodup_append]
  refine ⟨hn, List.nodup_singleton _, ?_⟩
  intro a ha hb
  simp only [List.mem_singleton] at hb
  exact hk (hb ▸ ha)

theorem loadAll_disjoint (tasks m : Registry) (hn : m.keys.Nodup)
    (hd : ∀ k ∈ m.keys, tasks.get k = none) :
    loadAll tasks m = tasks ++ m.map fun kv => (kv.1, resetTask kv.2) := by
  simp only [loadAll]
  induction m generalizing tasks with
  | nil => simp
  | cons hd0 m ih =>
    obtain ⟨k0, v0⟩ := hd0
    simp only [Registry.keys, List.map_cons, List.nodup_cons] at hn
    have h0 : tasks.get k0 = none := hd k0 (by simp [Registry.keys])
    simp only [List.foldl_cons, List.map_cons]
    rw [Registry.set_of_get_none _ _ _ h0, ih _ hn.2]
    · simp
    · intro k hk
      rw [Registry.get_append_single, hd k (by simp only [Registry.keys, List.map_cons]; exact List.mem_cons_of_mem _ hk)]
      have : ¬ k0 = k := by
        intro e; subst e; exact hn.1 hk
      simp [this]

theorem loadAll_nil (m : Registry) (hn : m.keys.Nodup) :
    loadAll [] m = m.map fun kv => (kv.1, resetTask kv.2) := by
  rw [loadAll_disjoint [] m hn (fun _ _ => rfl)]
  simp

theorem Registry.get_map (m : Registry) (g : Task → Task) (k : String) :
    Registry.get (m.map fun kv => (kv.1, g kv.2)) k = (m.get k).map g := by
  induction m with
  | nil => rfl
  | cons hd m ih =>
    obtain ⟨k0, t0⟩ := hd
    by_cases h0 : k0 = k <;> simp [Registry.get, h0, ih]

theorem markRunning_files (t : Task) (i : Nat) :
    (markRunning t i).Files = modifyFile t.Files i fun f => { f with Status := "running" } := by
  unfold markRunning; dsimp only; split <;> rfl

theorem step_mark_some (s s' : State) (k : String) (i : Nat) (h : step s (.mark k i) = some s') :
    s.inflight = none ∧ (∃ t f, s.tasks.get k = some t ∧ t.Files[i]? = some f ∧
        f.Status = "pending") ∧
      s' = { tasks := s.tasks.modify k fun t => markRunning t i, inflight := some (k, i) } := by
  unfold step at h
  cases hi : s.inflight with
  | some p => simp [hi] at h
  | none =>
    cases hg : s.tasks.get k with
    | none => simp [hi, hg] at h
    | some t =>
      cases hf : t.Files[i]? with
      | none => simp [hi, hg, hf] at h
      | some f =>
        by_cases hp : f.Status = "pending"
        · simp [hi, hg, hf, hp] at h
          exact ⟨rfl, ⟨t, f, rfl, hf, hp⟩, h.symm⟩
        · simp [hi, hg, hf, hp] at h

theorem step_record_some (s s' : State) (o : Outcome) (h : step s (.record o) = some s') :
    ∃ k i, s.inflight = some (k, i) ∧
      s' = { tasks := s.tasks.modify k fun t => recordOutcome t i o, inflight := none } := by
  unfold step at h
  cases hi : s.inflight with
  | none => simp [hi] at h
  | some p =>
    obtain ⟨k, i⟩ := p
    simp [hi] at h
    exact ⟨k, i, rfl, h.symm⟩

theorem Inv_step (s s' : State) (op : Op) (hs : Inv s) (h : step s op = some s') : Inv s' := by
  obtain ⟨hT, hI, hN⟩ := hs
  cases op with
  | request r now =>
    simp only [step, Option.some.injEq] at h
    subst h
    constructor
    · intro kt hkt
      rcases handleTasks_cases s.tasks r now with e | ⟨urls, hu, _, e⟩
      · rw [e] at hkt; exact hT kt hkt
      · rw [e] at hkt
        rcases List.mem_append.1 hkt with h1 | h1
        · exact hT kt h1
        · simp only [List.mem_singleton] at h1
          rw [h1]; exact TaskOK_newTask urls now hu
    refine ⟨?_, ?_⟩
    · intro k i hki
      obtain ⟨t, f, h1, h2, h3⟩ := hI k i hki
      exact ⟨t, f, handleTasks_get_some _ _ _ _ _ h1, h2, h3⟩
    · rcases handleTasks_cases s.tasks r now with e | ⟨urls, _, hg, e⟩
      · show Registry.keys (handleTasks s.tasks r now).1 |>.Nodup
        rw [e]; exact hN
      · show Registry.keys (handleTasks s.tasks r now).1 |>.Nodup
        rw [e]; exact Registry.nodup_append_single _ _ _ hN hg
  | mark k i =>
    obtain ⟨_, ⟨t, f, hg, hf, hp⟩, rfl⟩ := step_mark_some s s' k i h
    constructor
    · intro kt hkt
      rcases Registry.mem_modify _ _ _ _ hkt with h1 | ⟨t1, h1, h2⟩
      · exact hT kt h1
      · rw [hg] at h1; cases h1; rw [h2]
        exact TaskOK_markRunning t i f (hT _ (Registry.mem_of_get _ _ _ hg)) hf hp
    refine ⟨?_, ?_⟩
    · intro k' i' hki
      simp only [Option.some.injEq, Prod.mk.injEq] at hki
      obtain ⟨rfl, rfl⟩ := hki
      refine ⟨markRunning t i, { f with Status := "running" }, ?_, ?_, rfl⟩
      · simp [Registry.get_modify, hg]
      · rw [markRunning_files, modifyFile_getElem?, if_pos rfl, hf]; rfl
    · show Registry.keys (s.tasks.modify k _) |>.Nodup
      rw [Registry.keys_modify]; exact hN
  | record o =>
    obtain ⟨k, i, hki, rfl⟩ := step_record_some s s' o h
    obtain ⟨t, f, hg, hf, hr⟩ := hI k i hki
    constructor
    · intro kt hkt
      rcases Registry.mem_modify _ _ _ _ hkt with h1 | ⟨t1, h1, h2⟩
      · exact hT kt h1
      · rw [hg] at h1; cases h1; rw [h2]
        exact TaskOK_recordOutcome t i f o (hT _ (Registry.mem_of_get _ _ _ hg)) hf hr
    refine ⟨?_, ?_⟩
    · intro k' i' hki'
      simp at hki'
    · show Registry.keys (s.tasks.modify k _) |>.Nodup
      rw [Registry.keys_modify]; exact hN
  | restart =>
    rw [step_restart, Option.some.injEq] at h
    subst h
    constructor
    · intro kt hkt
      rcases mem_loadAll _ _ _ hkt with h1 | ⟨kv, hkv, e⟩
      · simp at h1
      · rw [e]; exact TaskOK_resetTask _ (hT kv hkv)
    refine ⟨?_, ?_⟩
    · intro k' i' hki'
      simp at hki'
    · show Registry.keys (loadAll [] s.tasks) |>.Nodup
      rw [loadAll_nil _ hN]
      simpa [Registry.keys, List.map_map, Function.comp_def] using hN

theorem run_append (s : State) (a b : List Op) :
    run s (a ++ b) = (run s a).bind fun s1 => run s1 b := by
  induction a generalizing s with
  | nil => simp [run]
  | cons op a ih =>
    simp only [List.cons_append, run]
    cases step s op with
    | none => simp
    | some s1 => simp [ih]

theorem Inv_run (s s' : State) (ops : List Op) (hs : Inv s) (h : run s ops = some s') :
    Inv s' := by
  induction ops generalizing s with
  | nil => simp only [run, Option.some.injEq] at h; subst h; exact hs
  | cons op ops ih =>
    simp only [run] at h
    cases h1 : step s op with
    | none => simp [h1] at h
    | some s1 =>
      simp only [h1, Option.some_bind] at h
      exact ih s1 (Inv_step s s1 op hs h1) h

theorem Inv_init : Inv State.init := by
  refine ⟨?_, ?_, ?_⟩
  · intro kt hkt; simp [State.init] at hkt
  · intro k i hki; simp [State.init] at hki
  · simp [State.init, Registry.keys]

/-! ## What one operation does to a single file -/

/-- A file that is neither pending nor running is left as it is by every operation. -/
theorem step_keeps_settled (s s' : State) (op : Op) (k : String) (i : Nat) (t : Task) (f : File)
    (hs : Inv s) (h : step s op = some s') (hg : s.tasks.get k = some t)
    (hf : t.Files[i]? = some f) (hp : f.Status ≠ "pending") (hr : f.Status ≠ "running") :
    ∃ t', s'.tasks.get k = some t' ∧ t'.Files[i]? = some f := by
  obtain ⟨hT, hI, hN⟩ := hs
  cases op with
  | request r now =>
    simp only [step, Option.some.injEq] at h
    subst h
    exact ⟨t, handleTasks_get_some _ _ _ _ _ hg, hf⟩
  | mark k0 i0 =>
    obtain ⟨_, ⟨t0, f0, hg0, hf0, hp0⟩, rfl⟩ := step_mark_some s s' k0 i0 h
    by_cases hk : k = k0
    · subst hk
      rw [hg] at hg0; cases hg0
      refine ⟨markRunning t i0, by simp [Registry.get_modify, hg], ?_⟩
      rw [markRunning_files, modifyFile_getElem?]
      by_cases hi : i = i0
      · subst hi
        rw [hf] at hf0; cases hf0
        exact absurd hp0 hp
      · rw [if_neg hi]; exact hf
    · exact ⟨t, by simp [Registry.get_modify, hk, hg], hf⟩
  | record o =>
    obtain ⟨k0, i0, hki, rfl⟩ := step_record_some s s' o h
    obtain ⟨t0, f0, hg0, hf0, hr0⟩ := hI k0 i0 hki
    by_cases hk : k = k0
    · subst hk
      rw [hg] at hg0; cases hg0
      refine ⟨recordOutcome t i0 o, by simp [Registry.get_modify, hg], ?_⟩
      rw [recordOutcome_files, modifyFile_getElem?]
      by_cases hi : i = i0
      · subst hi
        rw [hf] at hf0; cases hf0
        exact absurd hr0 hr
      · rw [if_neg hi]; exact hf
    · exact ⟨t, by simp [Registry.get_modify, hk, hg], hf⟩
  | restart =>
    rw [step_restart, Option.some.injEq] at h
    subst h
    refine ⟨resetTask t, ?_, ?_⟩
    · show Registry.get (loadAll [] s.tasks) k = _
      rw [loadAll_nil _ hN, Registry.get_map, hg]; rfl
    · rw [resetTask_files, List.getElem?_map, hf]
      simp [resetFile, hr]

theorem run_keeps_settled (s s' : State) (ops : List Op) (k : String) (i : Nat) (t : Task)
    (f : File) (hs : Inv s) (h : run s ops = some s') (hg : s.tasks.get k = some t)
    (hf : t.Files[i]? = some f) (hp : f.Status ≠ "pending") (hr : f.Status ≠ "running") :
    ∃ t', s'.tasks.get k = some t' ∧ t'.Files[i]? = some f := by
  induction ops generalizing s t with
  | nil =>
    simp only [run, Option.some.injEq] at h
    subst h
    exact ⟨t, hg, hf⟩
  | cons op ops ih =>
    simp only [run] at h
    cases h1 : step s op with
    | none => simp [h1] at h
    | some s1 =>
      simp only [h1, Option.some_bind] at h
      obtain ⟨t1, hg1, hf1⟩ := step_keeps_settled s s1 op k i t f hs h1 hg hf hp hr
      exact ih s1 t1 (Inv_step s s1 op hs h1) h hg1 hf1

/-- Requests handled while a download is in flight leave the tasks already stored alone. -/
theorem run_requests_get (s : State) (rs : List (Request × Nat)) :
    ∃ s', run s (rs.map fun r => Op.request r.1 r.2) = some s' ∧ s'.inflight = s.inflight ∧
      ∀ k t, s.tasks.get k = some t → s'.tasks.get k = some t := by
  induction rs generalizing s with
  | nil => exact ⟨s, rfl, rfl, fun _ _ h => h⟩
  | cons r rs ih =>
    obtain ⟨s', h1, h2, h3⟩ := ih { s with tasks := (handleTasks s.tasks r.1 r.2).1 }
    refine ⟨s', ?_, h2, ?_⟩
    · simp only [List.map_cons, run, step, Option.some_bind]
      exact h1
    · intro k t hg
      exact h3 k t (handleTasks_get_some _ _ _ _ _ hg)

/-! ## Lemmas on loading and on the task id -/

theorem loadAll_get (tasks m : Registry) (hn : m.keys.Nodup) (k : String) :
    (loadAll tasks m).get k =
      match m.get k with
      | some v => some (resetTask v)
      | none => tasks.get k := by
  simp only [loadAll]
  induction m generalizing tasks with
  | nil => simp [Registry.get]
  | cons hd m ih =>
    obtain ⟨k0, v0⟩ := hd
    simp only [Registry.keys, List.map_cons, List.nodup_cons] at hn
    simp only [List.foldl_cons]
    rw [ih _ hn.2]
    by_cases h0 : k0 = k
    · subst h0
      have : Registry.get m k0 = none := (Registry.get_none_iff m k0).2 hn.1
      simp [Registry.get, this, Registry.get_set]
    · have h1 : ¬ k = k0 := fun e => h0 e.symm
      simp [Registry.get, h0, Registry.get_set, h1]

theorem resetTask_eq (v : Task) :
    resetTask v =
      { ID := v.ID, CreatedAt := v.CreatedAt,
        Status := if v.Status = "running" then "pending" else v.Status,
        Files := v.Files.map fun f =>
          { URL := f.URL, Status := if f.Status = "running" then "pending" else f.Status,
            Path := f.Path, Error := f.Error } } := by
  have hf : (resetFile : File → File) = fun f =>
      { URL := f.URL, Status := if f.Status = "running" then "pending" else f.Status,
        Path := f.Path, Error := f.Error } := by
    funext f
    unfold resetFile
    split <;> rfl
  unfold resetTask
  dsimp only
  rw [hf]
  split <;> rfl

theorem resetTask_not_running (v : Task) :
    (resetTask v).Status ≠ "running" ∧ ∀ f ∈ (resetTask v).Files, f.Status ≠ "running" := by
  constructor
  · rw [resetTask_status]
    split
    · decide
    · assumption
  · intro f hf
    rw [resetTask_files] at hf
    obtain ⟨f0, _, rfl⟩ := List.mem_map.1 hf
    rw [resetFile_status]
    split
    · decide
    · assumption

theorem loadEntries_null (m : List (String × Option Task)) (tasks : Registry) (k : String)
    (h : (k, none) ∈ m) : loadEntries m tasks = none := by
  induction m generalizing tasks with
  | nil => simp at h
  | cons hd m ih =>
    obtain ⟨k0, v0⟩ := hd
    cases v0 with
    | none => rfl
    | some v =>
      simp only [loadEntries]
      apply ih
      rcases List.mem_cons.1 h with h1 | h1
      · cases h1
      · exact h1

/-- A decoded snapshot with a null entry makes loadSnapshot panic, whatever the other
entries and the order in which the map yields them. -/
theorem loadSnapshot_parsed_of_null (m : List (String × Option Task)) (tasks : Registry)
    (k : String) (h : (k, none) ∈ m) : loadSnapshot tasks (.parsed m) = none := by
  simp [loadSnapshot, loadEntries_null m tasks k h]

/-- On a decoded snapshot whose entries are all tasks (distinct keys), loadSnapshot returns
without error and stores under each snapshot key the snapshot task with running replaced
by pending in the task and in its files, everything else unchanged. -/
theorem loadSnapshot_stores_reset_tasks (tasks m : Registry) (hm : m.keys.Nodup) (k : String)
    (v : Task) (hv : (k, v) ∈ m) :
    ∃ r, loadSnapshot tasks (.parsed (m.map fun kv => (kv.1, some kv.2))) = some (r, none) ∧
      r.get k = some
        { ID := v.ID, CreatedAt := v.CreatedAt,
          Status := if v.Status = "running" then "pending" else v.Status,
          Files := v.Files.map fun f =>
            { URL := f.URL, Status := if f.Status = "running" then "pending" else f.Status,
              Path := f.Path, Error := f.Error } } ∧
      ∀ t, r.get k = some t → t.Status ≠ "running" ∧ ∀ f ∈ t.Files, f.Status ≠ "running" := by
  have hget : (loadAll tasks m).get k = some (resetTask v) := by
    rw [loadAll_get tasks m hm k, Registry.get_of_mem m k v hm hv]
  refine ⟨loadAll tasks m, loadSnapshot_saved tasks m, ?_, ?_⟩
  · rw [hget, resetTask_eq]
  · intro t ht
    rw [hget] at ht
    cases ht
    exact resetTask_not_running v

theorem strBytes_append (a b : String) : strBytes (a ++ b) = strBytes a ++ strBytes b := by
  simp [strBytes, String.data_append]

theorem foldl_strBytes (urls : List String) (s : String) :
    urls.foldl (fun h u => h ++ strBytes u) (strBytes s)
      = strBytes (urls.foldl (fun a b => a ++ b) s) := by
  induction urls generalizing s with
  | nil => rfl
  | cons u us ih =>
    simp only [List.foldl_cons]
    rw [← strBytes_append, ih]

/-- The id depends on the URL list only through the concatenation of the URLs. -/
theorem makeID_eq_join (urls : List String) :
    makeID urls = hexEncode (sha1 (strBytes (String.join urls))) := by
  unfold makeID String.join
  have h : ([] : List Nat) = strBytes "" := rfl
  rw [h, foldl_strBytes]

set_option maxRecDepth 1000000 in
/-- The embedded SHA-1 on the standard test vector. -/
theorem makeID_abc : makeID ["abc"] = "a9993e364706816aba3e25717850c26c9cd0d89d" := by decide

/-! ## Counting the running files -/

theorem countP_set_add (p : File → Bool) (fs : List File) (i : Nat) (f f' : File)
    (h : fs[i]? = some f) :
    (fs.set i f').countP p + (if p f then 1 else 0) = fs.countP p + (if p f' then 1 else 0) := by
  induction fs generalizing i with
  | nil => simp at h
  | cons a fs ih =>
    cases i with
    | zero =>
      simp only [List.getElem?_cons_zero, Option.some.injEq] at h
      subst h
      simp only [List.set_cons_zero, List.countP_cons]
      omega
    | succ i =>
      simp only [List.getElem?_cons_succ] at h
      have := ih i h
      simp only [List.set_cons_succ, List.countP_cons]
      omega

theorem runningFiles_markRunning (t : Task) (i : Nat) (f : File) (hf : t.Files[i]? = some f)
    (hp : f.Status = "pending") : runningFiles (markRunning t i) = runningFiles t + 1 := by
  unfold runningFiles
  rw [markRunning_files]
  unfold modifyFile
  rw [hf]
  have := countP_set_add (fun f => decide (f.Status = "running")) t.Files i f
    { f with Status := "running" } hf
  simp [hp] at this
  simpa using this

theorem runningFiles_recordOutcome (t : Task) (i : Nat) (f : File) (o : Outcome)
    (hf : t.Files[i]? = some f) (hr : f.Status = "running") :
    runningFiles (recordOutcome t i o) + 1 = runningFiles t := by
  unfold runningFiles
  rw [recordOutcome_files]
  unfold modifyFile
  rw [hf]
  cases o.err with
  | none =>
    have := countP_set_add (fun f => decide (f.Status = "running")) t.Files i f
      { f with Status := "done", Path := o.path } hf
    simp [hr] at this
    simpa using this
  | some msg =>
    have := countP_set_add (fun f => decide (f.Status = "running")) t.Files i f
      { f with Status := "failed", Error := msg } hf
    simp [hr] at this
    simpa using this

theorem runningCount_cons (k : String) (t : Task) (m : Registry) :
    runningCount ((k, t) :: m) = runningFiles t + runningCount m := by
  simp [runningCount, runningFiles]

theorem runningCount_modify (m : Registry) (k : String) (g : Task → Task) (t : Task)
    (h : m.get k = some t) :
    runningCount (m.modify k g) + runningFiles t = runningCount m + runningFiles (g t) := by
  induction m with
  | nil => simp [Registry.get] at h
  | cons hd m ih =>
    obtain ⟨k0, t0⟩ := hd
    by_cases h0 : k0 = k
    · simp only [Registry.get, h0, if_true, Option.some.injEq] at h
      subst h
      simp only [Registry.modify, h0, if_true, runningCount_cons]
      omega
    · simp only [Registry.get, h0, if_false] at h
      have := ih h
      simp only [Registry.modify, h0, if_false, runningCount_cons]
      omega

theorem runningCount_append_single (m : Registry) (k : String) (t : Task) :
    runningCount (m ++ [(k, t)]) = runningCount m + runningFiles t := by
  simp [runningCount, runningFiles]

theorem runningFiles_newTask (urls : List String) (now : Nat) :
    runningFiles (newTask urls now) = 0 := by
  simp [runningFiles, newTask, pendingFile, List.countP_eq_zero]

theorem runningFiles_resetTask (v : Task) : runningFiles (resetTask v) = 0 := by
  unfold runningFiles
  rw [List.countP_eq_zero]
  intro f hf
  simpa using (resetTask_not_running v).2 f hf

theorem runningCount_eq_zero (m : Registry) (h : ∀ kt ∈ m, runningFiles kt.2 = 0) :
    runningCount m = 0 := by
  induction m with
  | nil => rfl
  | cons hd m ih =>
    obtain ⟨k0, t0⟩ := hd
    rw [runningCount_cons, h (k0, t0) (List.mem_cons_self _ _),
      ih fun kt hkt => h kt (List.mem_cons_of_mem _ hkt)]

theorem runningCount_loadSnapshot (snap : Snapshot) (r : Registry × Option String)
    (h : loadSnapshot [] snap = some r) : runningCount r.1 = 0 := by
  cases snap with
  | unreadable => simp only [loadSnapshot, Option.some.injEq] at h; subst h; rfl
  | invalid err => simp only [loadSnapshot, Option.some.injEq] at h; subst h; rfl
  | parsed m =>
    simp only [loadSnapshot, Option.map_eq_some'] at h
    obtain ⟨r0, hl, rfl⟩ := h
    apply runningCount_eq_zero
    intro kt hkt
    rcases mem_loadEntries m [] r0 kt hl hkt with h1 | ⟨k, v, _, e⟩
    · simp at h1
    · rw [e]; exact runningFiles_resetTask _

theorem runningCount_loadAll (m : Registry) : runningCount (loadAll [] m) = 0 := by
  apply runningCount_eq_zero
  intro kt hkt
  rcases mem_loadAll _ _ _ hkt with h1 | ⟨kv, _, e⟩
  · simp at h1
  · rw [e]; exact runningFiles_resetTask _

theorem runningCount_handleTasks (tasks : Registry) (r : Request) (now : Nat) :
    runningCount (handleTasks tasks r now).1 = runningCount tasks := by
  rcases handleTasks_cases tasks r now with e | ⟨urls, _, _, e⟩
  · rw [e]
  · rw [e, runningCount_append_single, runningFiles_newTask]; rfl

theorem SingleFlight_step (s s' : State) (op : Op) (hs : SingleFlight s)
    (h : step s op = some s') : SingleFlight s' := by
  obtain ⟨hI, h0, h1⟩ := hs
  cases op with
  | request r now =>
    simp only [step, Option.some.injEq] at h
    subst h
    refine ⟨?_, ?_, ?_⟩
    · intro k i hki
      obtain ⟨t, f, h2, h3, h4⟩ := hI k i hki
      exact ⟨t, f, handleTasks_get_some _ _ _ _ _ h2, h3, h4⟩
    · intro hn
      show runningCount (handleTasks s.tasks r now).1 = 0
      rw [runningCount_handleTasks]; exact h0 hn
    · intro hn
      show runningCount (handleTasks s.tasks r now).1 = 1
      rw [runningCount_handleTasks]; exact h1 hn
  | mark k i =>
    obtain ⟨hidle, ⟨t, f, hg, hf, hp⟩, rfl⟩ := step_mark_some s s' k i h
    refine ⟨?_, ?_, ?_⟩
    · intro k' i' hki
      simp only [Option.some.injEq, Prod.mk.injEq] at hki
      obtain ⟨rfl, rfl⟩ := hki
      refine ⟨markRunning t i, { f with Status := "running" }, ?_, ?_, rfl⟩
      · simp [Registry.get_modify, hg]
      · rw [markRunning_files, modifyFile_getElem?, if_pos rfl, hf]; rfl
    · intro hn; simp at hn
    · intro _
      have := runningCount_modify s.tasks k (fun t => markRunning t i) t hg
      have h2 := runningFiles_markRunning t i f hf hp
      have h3 := h0 hidle
      show runningCount (s.tasks.modify k fun t => markRunning t i) = 1
      simp only at this
      omega
  | record o =>
    obtain ⟨k, i, hki, rfl⟩ := step_record_some s s' o h
    obtain ⟨t, f, hg, hf, hr⟩ := hI k i hki
    refine ⟨?_, ?_, ?_⟩
    · intro k' i' hki'; simp at hki'
    · intro _
      have := runningCount_modify s.tasks k (fun t => recordOutcome t i o) t hg
      have h2 := runningFiles_recordOutcome t i f o hf hr
      have h3 := h1 (by rw [hki]; simp)
      show runningCount (s.tasks.modify k fun t => recordOutcome t i o) = 0
      simp only at this
      omega
    · intro hn; simp at hn
  | restart =>
    rw [step_restart, Option.some.injEq] at h
    subst h
    refine ⟨?_, ?_, ?_⟩
    · intro k' i' hki'; simp at hki'
    · intro _; exact runningCount_loadAll _
    · intro hn; simp at hn

theorem SingleFlight_run (s s' : State) (ops : List Op) (hs : SingleFlight s)
    (h : run s ops = some s') : SingleFlight s' := by
  induction ops generalizing s with
  | nil => simp only [run, Option.some.injEq] at h; subst h; exact hs
  | cons op ops ih =>
    simp only [run] at h
    cases h1 : step s op with
    | none => simp [h1] at h
    | some s1 =>
      simp only [h1, Option.some_bind] at h
      exact ih s1 (SingleFlight_step s s1 op hs h1) h

/-! ## The worker pass -/

theorem workerFile_get (tasks : Registry) (k : String) (i : Nat) (o : Outcome) (k' : String) :
    (workerFile tasks k i o).get k'
      = if k' = k then (tasks.get k).map fun t => processFile t i o else tasks.get k' := by
  unfold workerFile
  cases hg : tasks.get k with
  | none =>
    by_cases hk : k' = k
    · subst hk; simp [hg]
    · simp [hk]
  | some t =>
    simp only [Option.map_some']
    unfold processFile
    cases hf : t.Files[i]? with
    | none =>
      by_cases hk : k' = k
      · subst hk; simp [hg]
      · simp [hk]
    | some f =>
      by_cases hp : f.Status = "pending"
      · by_cases hk : k' = k
        · subst hk; simp [hp, Registry.get_modify, hg]
        · simp [hp, Registry.get_modify, hk]
      · by_cases hk : k' = k
        · subst hk; simp [hp, hg]
        · simp [hp, hk]

/-- The pass over one file is a mark step followed by a record step of the service. -/
theorem workerFile_eq_run (tasks : Registry) (k : String) (i : Nat) (o : Outcome) (t : Task)
    (f : File) (hg : tasks.get k = some t) (hf : t.Files[i]? = some f)
    (hp : f.Status = "pending") :
    run { tasks := tasks, inflight := none } [.mark k i, .record o]
      = some { tasks := workerFile tasks k i o, inflight := none } := by
  simp [run, step, hg, hf, hp, workerFile]

theorem processFile_getElem? (t : Task) (i : Nat) (o : Outcome) (j : Nat) :
    (processFile t i o).Files[j]?
      = if j = i then (t.Files[i]?).map fun f => settle f o else t.Files[j]? := by
  unfold processFile
  cases hf : t.Files[i]? with
  | none =>
    by_cases hj : j = i
    · subst hj; simp [hf]
    · simp [hj]
  | some f =>
    by_cases hp : f.Status = "pending"
    · simp only [hp, ne_eq, not_true_eq_false, if_false]
      rw [recordOutcome_files, modifyFile_getElem?, markRunning_files, modifyFile_getElem?]
      by_cases hj : j = i
      · subst hj
        simp only [if_true, hf, Option.map_some', settle, hp]
      · simp only [hj, if_false]
        rw [modifyFile_getElem?, if_neg hj]
    · by_cases hj : j = i
      · subst hj; simp [hp, hf, settle]
      · simp [hp, hj]

theorem settle_settle (f : File) (o o' : Outcome) : settle (settle f o) o' = settle f o := by
  by_cases hp : f.Status = "pending"
  · cases he : o.err <;> simp [settle, hp, he]
  · simp [settle, hp]

theorem foldl_processFile_getElem? (outcome : Nat → Outcome) (l : List Nat) (t : Task)
    (j : Nat) :
    (l.foldl (fun acc i => processFile acc i (outcome i)) t).Files[j]?
      = (t.Files[j]?).map fun f => if j ∈ l then settle f (outcome j) else f := by
  induction l generalizing t with
  | nil => simp
  | cons i l ih =>
    simp only [List.foldl_cons]
    rw [ih, processFile_getElem?]
    by_cases hj : j = i
    · subst hj
      cases t.Files[j]? with
      | none => simp
      | some f =>
        by_cases hl : j ∈ l <;> simp [hl, settle_settle]
    · have hm : (j ∈ i :: l) = (j ∈ l) := by simp [hj]
      simp only [hj, if_false, hm]

theorem foldl_workerFile_get (outcome : Nat → Outcome) (k : String) (l : List Nat)
    (tasks : Registry) (k' : String) :
    (l.foldl (fun acc i => workerFile acc k i (outcome i)) tasks).get k'
      = if k' = k then
          (tasks.get k).map fun t => l.foldl (fun acc i => processFile acc i (outcome i)) t
        else tasks.get k' := by
  induction l generalizing tasks with
  | nil =>
    by_cases hk : k' = k
    · subst hk; simp
    · simp [hk]
  | cons i l ih =>
    simp only [List.foldl_cons]
    rw [ih]
    by_cases hk : k' = k
    · subst hk
      simp only [if_true, workerFile_get]
      cases tasks.get k' <;> simp
    · simp only [hk, if_false, workerFile_get]

theorem workerTask_file (outcomes : String → Nat → Outcome) (tasks : Registry) (k : String)
    (k' : String) (t : Task) (j : Nat) (f : File) (hg : tasks.get k' = some t)
    (hf : t.Files[j]? = some f) :
    ∃ t', (workerTask outcomes tasks k).get k' = some t' ∧
      t'.Files[j]? = some (if k' = k then settle f (outcomes k' j) else f) := by
  unfold workerTask
  by_cases hk : k' = k
  · subst hk
    rw [hg]
    simp only
    rw [foldl_workerFile_get (outcomes k') k' _ tasks k', if_pos rfl, hg]
    refine ⟨_, rfl, ?_⟩
    rw [foldl_processFile_getElem?, hf]
    have hj : j < t.Files.length := (List.getElem?_eq_some.1 hf).1
    simp [List.mem_range, hj]
  · cases hgk : tasks.get k with
    | none => exact ⟨t, hg, by simp [hk, hf]⟩
    | some t0 =>
      simp only
      rw [foldl_workerFile_get (outcomes k) k _ tasks k', if_neg hk]
      exact ⟨t, hg, by simp [hk, hf]⟩

theorem workerPass_file (outcomes : String → Nat → Outcome) (taskList : List String)
    (tasks : Registry) (k : String) (t : Task) (j : Nat) (f : File)
    (hg : tasks.get k = some t) (hf : t.Files[j]? = some f) :
    ∃ t', (workerPass outcomes taskList tasks).get k = some t' ∧
      t'.Files[j]? = some (if k ∈ taskList then settle f (outcomes k j) else f) := by
  unfold workerPass
  induction taskList generalizing tasks t f with
  | nil => exact ⟨t, hg, by simpa using hf⟩
  | cons k0 l ih =>
    simp only [List.foldl_cons]
    obtain ⟨t1, hg1, hf1⟩ := workerTask_file outcomes tasks k0 k t j f hg hf
    obtain ⟨t2, hg2, hf2⟩ := ih _ t1 _ hg1 hf1
    refine ⟨t2, hg2, ?_⟩
    rw [hf2]
    by_cases hk : k = k0
    · subst hk
      by_cases hl : k ∈ l <;> simp [hl, settle_settle]
    · have hm : (k ∈ k0 :: l) = (k ∈ l) := by simp [hk]
      simp only [hk, if_false, hm]

theorem runningCount_workerFile (tasks : Registry) (k : String) (i : Nat) (o : Outcome) :
    runningCount (workerFile tasks k i o) = runningCount tasks := by
  cases hg : tasks.get k with
  | none => simp [workerFile, hg]
  | some t =>
    cases hf : t.Files[i]? with
    | none => simp [workerFile, hg, hf]
    | some f =>
      by_cases hp : f.Status = "pending"
      · simp only [workerFile, hg, hf, hp, ne_eq, not_true_eq_false, if_false]
        have hg1 : (tasks.modify k fun t => markRunning t i).get k = some (markRunning t i) := by
          simp [Registry.get_modify, hg]
        have hf1 : (markRunning t i).Files[i]? = some { f with Status := "running" } := by
          rw [markRunning_files, modifyFile_getElem?, if_pos rfl, hf]; rfl
        have e1 := runningCount_modify tasks k (fun t => markRunning t i) t hg
        have e2 := runningCount_modify (tasks.modify k fun t => markRunning t i) k
          (fun t => recordOutcome t i o) (markRunning t i) hg1
        have e3 := runningFiles_markRunning t i f hf hp
        have e4 := runningFiles_recordOutcome (markRunning t i) i _ o hf1 rfl
        simp only at e1 e2
        omega
      · simp [workerFile, hg, hf, hp]

theorem runningCount_workerTask (outcomes : String → Nat → Outcome) (tasks : Registry)
    (k : String) : runningCount (workerTask outcomes tasks k) = runningCount tasks := by
  unfold workerTask
  cases tasks.get k with
  | none => rfl
  | some t =>
    simp only
    generalize List.range t.Files.length = l
    induction l generalizing tasks with
    | nil => rfl
    | cons i l ih =>
      simp only [List.foldl_cons]
      rw [ih, runningCount_workerFile]

theorem runningCount_workerPass (outcomes : String → Nat → Outcome) (taskList : List String)
    (tasks : Registry) : runningCount (workerPass outcomes taskList tasks) = runningCount tasks := by
  unfold workerPass
  induction taskList generalizing tasks with
  | nil => rfl
  | cons k l ih =>
    simp only [List.foldl_cons]
    rw [ih, runningCount_workerTask]

/-- The pass is a run of the service: a sequence of mark and record steps. -/
theorem workerFile_is_run (tasks : Registry) (k : String) (i : Nat) (o : Outcome) :
    ∃ ops, run { tasks := tasks, inflight := none } ops
      = some { tasks := workerFile tasks k i o, inflight := none } := by
  cases hg : tasks.get k with
  | none => exact ⟨[], by simp [run, workerFile, hg]⟩
  | some t =>
    cases hf : t.Files[i]? with
    | none => exact ⟨[], by simp [run, workerFile, hg, hf]⟩
    | some f =>
      by_cases hp : f.Status = "pending"
      · exact ⟨[.mark k i, .record o], workerFile_eq_run tasks k i o t f hg hf hp⟩
      · exact ⟨[], by simp [run, workerFile, hg, hf, hp]⟩

theorem workerTask_is_run (outcomes : String → Nat → Outcome) (tasks : Registry) (k : String) :
    ∃ ops, run { tasks := tasks, inflight := none } ops
      = some { tasks := workerTask outcomes tasks k, inflight := none } := by
  unfold workerTask
  cases tasks.get k with
  | none => exact ⟨[], rfl⟩
  | some t =>
    simp only
    generalize List.range t.Files.length = l
    induction l generalizing tasks with
    | nil => exact ⟨[], rfl⟩
    | cons i l ih =>
      obtain ⟨ops1, h1⟩ := workerFile_is_run tasks k i (outcomes k i)
      obtain ⟨ops2, h2⟩ := ih (workerFile tasks k i (outcomes k i))
      refine ⟨ops1 ++ ops2, ?_⟩
      rw [run_append, h1]
      simpa using h2

theorem workerPass_is_run (outcomes : String → Nat → Outcome) (taskList : List String)
    (tasks : Registry) :
    ∃ ops, run { tasks := tasks, inflight := none } ops
      = some { tasks := workerPass outcomes taskList tasks, inflight := none } := by
  unfold workerPass
  induction taskList generalizing tasks with
  | nil => exact ⟨[], rfl⟩
  | cons k l ih =>
    obtain ⟨ops1, h1⟩ := workerTask_is_run outcomes tasks k
    obtain ⟨ops2, h2⟩ := ih (workerTask outcomes tasks k)
    refine ⟨ops1 ++ ops2, ?_⟩
    rw [run_append, h1]
    simpa using h2

/-! ## The claims -/

/-- C1: in every state reached from the empty registry by handled requests (task
creation), worker steps (mark a pending file running; record the outcome and recompute the
task status) and save/load restarts, a task has Status done if and only if every one of
its files has Status done. -/
theorem task_done_iff_all_files_done (ops : List Op) (s : State)
    (h : run State.init ops = some s) (k : String) (t : Task) (hg : s.tasks.get k = some t) :
    t.Status = "done" ↔ ∀ f ∈ t.Files, f.Status = "done" :=
  ((Inv_run _ _ ops Inv_init h).1 (k, t) (Registry.mem_of_get _ _ _ hg)).done_iff

set_option maxRecDepth 1000000 in
/-- Witness of C1: one task with two URLs, both downloaded, across a restart. -/
theorem task_done_iff_all_files_done_witness :
    run State.init
        [.request ⟨"POST", some ["http://x/a.bin", "http://x/b.bin"]⟩ 7,
         .mark (makeID ["http://x/a.bin", "http://x/b.bin"]) 0,
         .record ⟨"downloads/20251001-120000-a.bin", none⟩,
         .mark (makeID ["http://x/a.bin", "http://x/b.bin"]) 1,
         .restart,
         .mark (makeID ["http://x/a.bin", "http://x/b.bin"]) 1,
         .record ⟨"downloads/20251001-120500-b.bin", none⟩]
      = some
        { tasks := [(makeID ["http://x/a.bin", "http://x/b.bin"],
            { ID := makeID ["http://x/a.bin", "http://x/b.bin"], CreatedAt := 7, Status := "done",
              Files := [⟨"http://x/a.bin", "done", "downloads/20251001-120000-a.bin", ""⟩,
                        ⟨"http://x/b.bin", "done", "downloads/20251001-120500-b.bin", ""⟩] })],
          inflight := none } ∧
      (({ ID := makeID ["http://x/a.bin", "http://x/b.bin"], CreatedAt := 7, Status := "done",
          Files := [⟨"http://x/a.bin", "done", "downloads/20251001-120000-a.bin", ""⟩,
                    ⟨"http://x/b.bin", "done", "downloads/20251001-120500-b.bin", ""⟩] } : Task).Status
          = "done" ↔
        ∀ f ∈ ({ ID := makeID ["http://x/a.bin", "http://x/b.bin"], CreatedAt := 7,
                 Status := "done",
                 Files := [⟨"http://x/a.bin", "done", "downloads/20251001-120000-a.bin", ""⟩,
                           ⟨"http://x/b.bin", "done", "downloads/20251001-120500-b.bin", ""⟩] }
                : Task).Files,
          f.Status = "done") :=
  (fun h => ⟨h, task_done_iff_all_files_done _ _ h
    (makeID ["http://x/a.bin", "http://x/b.bin"]) _ (by simp [Registry.get])⟩) (by decide)


/-- C2: once a file of a task has Status failed in a state reached from the empty registry,
then after any further sequence of operations (requests, worker steps with any outcomes,
restarts) that file is unchanged, hence still failed, the worker cannot pick it up again,
and the task is not done: its Status is pending or running. -/
theorem failed_file_keeps_task_from_done (ops : List Op) (s : State)
    (h : run State.init ops = some s) (k : String) (i : Nat) (t : Task) (f : File)
    (hg : s.tasks.get k = some t) (hf : t.Files[i]? = some f) (hfail : f.Status = "failed")
    (ops' : List Op) (s' : State) (h' : run s ops' = some s') :
    ∃ t', s'.tasks.get k = some t' ∧ t'.Files[i]? = some f ∧ step s' (.mark k i) = none ∧
      t'.Status ≠ "done" ∧ (t'.Status = "pending" ∨ t'.Status = "running") := by
  have hs : Inv s := Inv_run _ _ ops Inv_init h
  have hs' : Inv s' := Inv_run _ _ ops' hs h'
  have hp : f.Status ≠ "pending" := by rw [hfail]; decide
  have hr : f.Status ≠ "running" := by rw [hfail]; decide
  obtain ⟨t', hg', hf'⟩ := run_keeps_settled s s' ops' k i t f hs h' hg hf hp hr
  have hok : TaskOK t' := hs'.1 (k, t') (Registry.mem_of_get _ _ _ hg')
  have hnd : t'.Status ≠ "done" := by
    intro hd
    have := hok.done_iff.1 hd f (List.mem_iff_getElem?.2 ⟨i, hf'⟩)
    rw [hfail] at this
    exact absurd this (by decide)
  refine ⟨t', hg', hf', ?_, hnd, ?_⟩
  · cases hm : step s' (.mark k i) with
    | none => rfl
    | some s2 =>
      obtain ⟨_, ⟨t2, f2, hg2, hf2, hp2⟩, _⟩ := step_mark_some s' s2 k i hm
      rw [hg'] at hg2; cases hg2
      rw [hf'] at hf2; cases hf2
      exact absurd hp2 hp
  · rcases hok.status with h1 | h1 | h1
    · exact Or.inl h1
    · exact Or.inr h1
    · exact absurd h1 hnd

set_option maxRecDepth 1000000 in
/-- Witness of C2: the only file of a task fails; a restart and a second task that
succeeds follow. -/
theorem failed_file_keeps_task_from_done_witness :
    (run State.init
        [.request ⟨"POST", some ["http://x/gone"]⟩ 3,
         .mark (makeID ["http://x/gone"]) 0,
         .record ⟨"", some "500 Internal Server Error"⟩]
      = some
        { tasks := [(makeID ["http://x/gone"],
            { ID := makeID ["http://x/gone"], CreatedAt := 3, Status := "running",
              Files := [⟨"http://x/gone", "failed", "", "500 Internal Server Error"⟩] })],
          inflight := none } ∧
      run
        { tasks := [(makeID ["http://x/gone"],
            { ID := makeID ["http://x/gone"], CreatedAt := 3, Status := "running",
              Files := [⟨"http://x/gone", "failed", "", "500 Internal Server Error"⟩] })],
          inflight := none }
        [.restart, .request ⟨"POST", some ["http://x/a.bin"]⟩ 9,
         .mark (makeID ["http://x/a.bin"]) 0, .record ⟨"downloads/20251001-120000-a.bin", none⟩]
      = some
        { tasks := [(makeID ["http://x/gone"],
            { ID := makeID ["http://x/gone"], CreatedAt := 3, Status := "pending",
              Files := [⟨"http://x/gone", "failed", "", "500 Internal Server Error"⟩] }),
            (makeID ["http://x/a.bin"],
            { ID := makeID ["http://x/a.bin"], CreatedAt := 9, Status := "done",
              Files := [⟨"http://x/a.bin", "done", "downloads/20251001-120000-a.bin", ""⟩] })],
          inflight := none }) ∧
      ∃ t', Registry.get
          [(makeID ["http://x/gone"],
            { ID := makeID ["http://x/gone"], CreatedAt := 3, Status := "pending",
              Files := [⟨"http://x/gone", "failed", "", "500 Internal Server Error"⟩] }),
            (makeID ["http://x/a.bin"],
            { ID := makeID ["http://x/a.bin"], CreatedAt := 9, Status := "done",
              Files := [⟨"http://x/a.bin", "done", "downloads/20251001-120000-a.bin", ""⟩] })]
          (makeID ["http://x/gone"]) = some t' ∧
        t'.Files[0]? = some ⟨"http://x/gone", "failed", "", "500 Internal Server Error"⟩ ∧
        step
          { tasks := [(makeID ["http://x/gone"],
              { ID := makeID ["http://x/gone"], CreatedAt := 3, Status := "pending",
                Files := [⟨"http://x/gone", "failed", "", "500 Internal Server Error"⟩] }),
              (makeID ["http://x/a.bin"],
              { ID := makeID ["http://x/a.bin"], CreatedAt := 9, Status := "done",
                Files := [⟨"http://x/a.bin", "done", "downloads/20251001-120000-a.bin", ""⟩] })],
            inflight := none }
          (.mark (makeID ["http://x/gone"]) 0) = none ∧
        t'.Status ≠ "done" ∧ (t'.Status = "pending" ∨ t'.Status = "running") :=
  (fun h => ⟨h, failed_file_keeps_task_from_done _ _ h.1 (makeID ["http://x/gone"]) 0
      { ID := makeID ["http://x/gone"], CreatedAt := 3, Status := "running",
        Files := [⟨"http://x/gone", "failed", "", "500 Internal Server Error"⟩] }
      ⟨"http://x/gone", "failed", "", "500 Internal Server Error"⟩
      (by simp [Registry.get]) rfl rfl _ _ h.2⟩)
    (by decide)

/-- C6: a file that the worker finds pending in a state reached from the empty registry
has empty Path and Error; after the worker marks it running, any requests are handled
meanwhile, and the outcome is recorded, the file has Status done, Path the returned path
and empty Error when the download returned no error, and Status failed, Error the message
and empty Path when it returned an error, whatever path came with the error. -/
theorem worker_records_outcome (ops : List Op) (s : State) (h : run State.init ops = some s)
    (hidle : s.inflight = none) (k : String) (i : Nat) (t : Task) (f : File)
    (hg : s.tasks.get k = some t) (hf : t.Files[i]? = some f) (hp : f.Status = "pending")
    (rs : List (Request × Nat)) (o : Outcome) :
    f.Path = "" ∧ f.Error = "" ∧
      ∃ s2 t2, run s (Op.mark k i :: (rs.map fun r => Op.request r.1 r.2) ++ [Op.record o])
            = some s2 ∧
        s2.tasks.get k = some t2 ∧
        t2.Files[i]? = some
          (match o.err with
           | none => { URL := f.URL, Status := "done", Path := o.path, Error := "" }
           | some e => { URL := f.URL, Status := "failed", Path := "", Error := e }) := by
  have hs : Inv s := Inv_run _ _ ops Inv_init h
  have hfr := (hs.1 (k, t) (Registry.mem_of_get _ _ _ hg)).fresh f
    (List.mem_iff_getElem?.2 ⟨i, hf⟩) (Or.inl hp)
  refine ⟨hfr.1, hfr.2, ?_⟩
  have hmark : step s (.mark k i)
      = some { tasks := s.tasks.modify k fun t => markRunning t i, inflight := some (k, i) } := by
    simp [step, hidle, hg, hf, hp]
  obtain ⟨s1, hrun1, hin1, hget1⟩ :=
    run_requests_get { tasks := s.tasks.modify k fun t => markRunning t i, inflight := some (k, i) } rs
  have hg1 : s1.tasks.get k = some (markRunning t i) :=
    hget1 k _ (by simp [Registry.get_modify, hg])
  refine ⟨{ tasks := s1.tasks.modify k fun t => recordOutcome t i o, inflight := none },
    recordOutcome (markRunning t i) i o, ?_, ?_, ?_⟩
  · rw [List.cons_append]
    simp only [run, hmark, Option.some_bind]
    rw [run_append, hrun1]
    simp only [Option.some_bind, run, step]
    rw [hin1]
    rfl
  · simp [Registry.get_modify, hg1]
  · rw [recordOutcome_files, modifyFile_getElem?, if_pos rfl, markRunning_files,
      modifyFile_getElem?, if_pos rfl, hf]
    obtain ⟨u, st, p, e⟩ := f
    simp only at hfr
    obtain ⟨rfl, rfl⟩ := hfr
    cases o.err <;> rfl

/-- The function download can return a path together with an error: the copy to disk
fails after the file was created. -/
theorem download_path_with_error :
    download { getErr := none, statusCode := 200, status := "200 OK", baseName := "a.bin",
               timestamp := "20251001-120000", createErr := none,
               copyErr := some "unexpected EOF" }
      = ⟨"downloads/20251001-120000-a.bin", some "unexpected EOF"⟩ := by decide

set_option maxRecDepth 1000000 in
/-- Witness of C6: the copy to disk fails after the file was created, so the download
returns a path together with the error; a request is handled during the download. -/
theorem worker_records_outcome_witness :
    run State.init [.request ⟨"POST", some ["http://x/a.bin"]⟩ 3]
      = some { tasks := [(makeID ["http://x/a.bin"],
                { ID := makeID ["http://x/a.bin"], CreatedAt := 3, Status := "pending",
                  Files := [⟨"http://x/a.bin", "pending", "", ""⟩] })],
               inflight := none } ∧
      ((⟨"http://x/a.bin", "pending", "", ""⟩ : File).Path = "" ∧
       (⟨"http://x/a.bin", "pending", "", ""⟩ : File).Error = "" ∧
       ∃ s2 t2,
        run { tasks := [(makeID ["http://x/a.bin"],
                { ID := makeID ["http://x/a.bin"], CreatedAt := 3, Status := "pending",
                  Files := [⟨"http://x/a.bin", "pending", "", ""⟩] })],
              inflight := none }
            (Op.mark (makeID ["http://x/a.bin"]) 0 ::
              ([((⟨"POST", some ["http://x/b.bin"]⟩ : Request), 4)].map
                fun r => Op.request r.1 r.2) ++
              [Op.record ⟨"downloads/20251001-120000-a.bin", some "unexpected EOF"⟩])
          = some s2 ∧
        s2.tasks.get (makeID ["http://x/a.bin"]) = some t2 ∧
        t2.Files[0]? = some
          (match (⟨"downloads/20251001-120000-a.bin", some "unexpected EOF"⟩ : Outcome).err with
           | none => { URL := (⟨"http://x/a.bin", "pending", "", ""⟩ : File).URL, Status := "done",
                       Path := (⟨"downloads/20251001-120000-a.bin",
                                 some "unexpected EOF"⟩ : Outcome).path,
                       Error := "" }
           | some e => { URL := (⟨"http://x/a.bin", "pending", "", ""⟩ : File).URL,
                         Status := "failed", Path := "", Error := e })) :=
  (fun h => ⟨h, worker_records_outcome _ _ h rfl (makeID ["http://x/a.bin"]) 0
      { ID := makeID ["http://x/a.bin"], CreatedAt := 3, Status := "pending",
        Files := [⟨"http://x/a.bin", "pending", "", ""⟩] }
      ⟨"http://x/a.bin", "pending", "", ""⟩ (by simp [Registry.get]) rfl rfl
      [(⟨"POST", some ["http://x/b.bin"]⟩, 4)]
      ⟨"downloads/20251001-120000-a.bin", some "unexpected EOF"⟩⟩)
    (by decide)


/-- C5, the failing input: the snapshot file decodes without error to a map with a null
entry under k1 and a running task under k2.  In both orders in which the map can yield the
two entries loadSnapshot dereferences the nil pointer and panics instead of returning, so
the task under k2 is not loaded with its running statuses reset; without the null entry the
same task is stored under k2 with running replaced by pending. -/
theorem loadSnapshot_null_entry_panics :
    loadSnapshot []
        (.parsed
          [("k1", none),
           ("k2", some { ID := "k2", CreatedAt := 5, Status := "running",
                         Files := [⟨"http://x/a", "done", "downloads/1-a", ""⟩,
                                   ⟨"http://x/b", "running", "", ""⟩] })]) = none ∧
      loadSnapshot []
        (.parsed
          [("k2", some { ID := "k2", CreatedAt := 5, Status := "running",
                         Files := [⟨"http://x/a", "done", "downloads/1-a", ""⟩,
                                   ⟨"http://x/b", "running", "", ""⟩] }),
           ("k1", none)]) = none ∧
      loadSnapshot []
        (.parsed
          [("k2", some { ID := "k2", CreatedAt := 5, Status := "running",
                         Files := [⟨"http://x/a", "done", "downloads/1-a", ""⟩,
                                   ⟨"http://x/b", "running", "", ""⟩] })])
        = some
          ([("k2", { ID := "k2", CreatedAt := 5, Status := "pending",
                     Files := [⟨"http://x/a", "done", "downloads/1-a", ""⟩,
                               ⟨"http://x/b", "pending", "", ""⟩] })], none) := by
  decide

/-- C8: when the list of URLs is not empty and its id is not yet in the registry, the
request stores one new entry under makeID(urls): a task with that ID, Status pending and
one pending file per requested URL, in request order, with empty Path and Error; every
other entry of the registry is unchanged; the answer is 202 with the id. -/
theorem create_adds_one_task (tasks : Registry) (urls : List String) (now : Nat)
    (hu : urls ≠ []) (hnew : tasks.get (makeID urls) = none) :
    handleTasks tasks ⟨"POST", some urls⟩ now
        = (tasks ++ [(makeID urls,
            { ID := makeID urls, CreatedAt := now, Status := "pending",
              Files := urls.map fun u =>
                { URL := u, Status := "pending", Path := "", Error := "" } })],
           ⟨202, some ("id", makeID urls)⟩) ∧
      (handleTasks tasks ⟨"POST", some urls⟩ now).1.get (makeID urls) = some
        { ID := makeID urls, CreatedAt := now, Status := "pending",
          Files := urls.map fun u => { URL := u, Status := "pending", Path := "", Error := "" } } ∧
      ∀ k, k ≠ makeID urls →
        (handleTasks tasks ⟨"POST", some urls⟩ now).1.get k = tasks.get k := by
  have h := handleTasks_post_new tasks urls now hu hnew
  refine ⟨h, ?_, ?_⟩
  · rw [h]
    show Registry.get (tasks ++ [(makeID urls, newTask urls now)]) (makeID urls) = _
    rw [Registry.get_append_single, hnew]
    simp [newTask, pendingFile]
  · intro k hk
    rw [h]
    show Registry.get (tasks ++ [(makeID urls, newTask urls now)]) k = _
    rw [Registry.get_append_single]
    have hk2 : ¬ makeID urls = k := fun e => hk e.symm
    cases tasks.get k <;> simp [hk2]

/-- Witness of C8: a request with a repeated URL on the empty registry. -/
theorem create_adds_one_task_witness :
    ["http://x/a.bin", "http://x/b.bin", "http://x/a.bin"] ≠ [] ∧
      Registry.get [] (makeID ["http://x/a.bin", "http://x/b.bin", "http://x/a.bin"]) = none ∧
      (handleTasks [] ⟨"POST", some ["http://x/a.bin", "http://x/b.bin", "http://x/a.bin"]⟩ 11).1.get
          (makeID ["http://x/a.bin", "http://x/b.bin", "http://x/a.bin"])
        = some
          { ID := makeID ["http://x/a.bin", "http://x/b.bin", "http://x/a.bin"], CreatedAt := 11,
            Status := "pending",
            Files := ["http://x/a.bin", "http://x/b.bin", "http://x/a.bin"].map fun u =>
              { URL := u, Status := "pending", Path := "", Error := "" } } :=
  ⟨by decide, rfl,
   (create_adds_one_task [] ["http://x/a.bin", "http://x/b.bin", "http://x/a.bin"] 11
      (by decide) rfl).2.1⟩

/-- C9: a POST whose decoded list of URLs is empty is answered 400 with the body
error: no urls, and the registry is returned unchanged; so the lookup of any id, the id of
the empty list included, gives what it gave before. -/
theorem empty_urls_rejected (tasks : Registry) (now : Nat) :
    handleTasks tasks ⟨"POST", some []⟩ now = (tasks, ⟨400, some ("error", "no urls")⟩) ∧
      ∀ k, (handleTasks tasks ⟨"POST", some []⟩ now).1.get k = tasks.get k := by
  have h : handleTasks tasks ⟨"POST", some []⟩ now
      = (tasks, ⟨400, some ("error", "no urls")⟩) := by
    simp [handleTasks]
  exact ⟨h, fun k => by rw [h]⟩


set_option maxRecDepth 1000000 in
/-- C3, the failing input: two different orderings of the same two URLs get the same id,
because the URLs are written into the hash one after another with nothing between them,
so both orderings feed the same bytes to SHA-1; the second request then finds the id of
the first, creates nothing, and answers with that id. -/
theorem makeID_reordered_urls_same_id :
    ["http://x/a", "http://x/ahttp://x/a"] ≠ ["http://x/ahttp://x/a", "http://x/a"] ∧
      List.Perm ["http://x/a", "http://x/ahttp://x/a"] ["http://x/ahttp://x/a", "http://x/a"] ∧
      (["http://x/a", "http://x/ahttp://x/a"].foldl (fun h u => h ++ strBytes u) [])
        = (["http://x/ahttp://x/a", "http://x/a"].foldl (fun h u => h ++ strBytes u) []) ∧
      makeID ["http://x/a", "http://x/ahttp://x/a"]
        = makeID ["http://x/ahttp://x/a", "http://x/a"] ∧
      handleTasks (handleTasks [] ⟨"POST", some ["http://x/a", "http://x/ahttp://x/a"]⟩ 1).1
          ⟨"POST", some ["http://x/ahttp://x/a", "http://x/a"]⟩ 2
        = ([(makeID ["http://x/a", "http://x/ahttp://x/a"],
              { ID := makeID ["http://x/a", "http://x/ahttp://x/a"], CreatedAt := 1,
                Status := "pending",
                Files := [⟨"http://x/a", "pending", "", ""⟩,
                          ⟨"http://x/ahttp://x/a", "pending", "", ""⟩] })],
           ⟨202, some ("id", makeID ["http://x/a", "http://x/ahttp://x/a"])⟩) := by
  refine ⟨by decide, ?_, by decide, by decide, by decide⟩
  exact List.Perm.swap _ _ _

set_option maxRecDepth 1000000 in
/-- C4, counterexample: the handler keeps whatever task is already stored under the id.
First, a registry loaded from a snapshot that holds a task with two files under the id of
a one-URL list: after the list is submitted twice the task under makeID(urls) still has
two files, not len(urls) = 1.  Second, the same from the empty registry through requests
alone: a request for two URLs, then twice a request for the one URL that is their
concatenation. -/
theorem resubmit_file_count_counterexample :
    loadSnapshot []
        (.parsed
          [(makeID ["http://x/a.bin"],
            some { ID := makeID ["http://x/a.bin"], CreatedAt := 1, Status := "done",
                   Files := [⟨"http://x/a.bin", "done", "downloads/1-a.bin", ""⟩,
                             ⟨"http://x/b.bin", "done", "downloads/2-b.bin", ""⟩] })])
        = some
          ([(makeID ["http://x/a.bin"],
              { ID := makeID ["http://x/a.bin"], CreatedAt := 1, Status := "done",
                Files := [⟨"http://x/a.bin", "done", "downloads/1-a.bin", ""⟩,
                          ⟨"http://x/b.bin", "done", "downloads/2-b.bin", ""⟩] })], none) ∧
      ((handleTasks
        (handleTasks
          [(makeID ["http://x/a.bin"],
              { ID := makeID ["http://x/a.bin"], CreatedAt := 1, Status := "done",
                Files := [⟨"http://x/a.bin", "done", "downloads/1-a.bin", ""⟩,
                          ⟨"http://x/b.bin", "done", "downloads/2-b.bin", ""⟩] })]
          ⟨"POST", some ["http://x/a.bin"]⟩ 2).1
        ⟨"POST", some ["http://x/a.bin"]⟩ 3).1.get (makeID ["http://x/a.bin"])).map
        (fun t => t.Files.length) = some 2 ∧
      ((handleTasks
        (handleTasks
          [(makeID ["http://x/a.bin"],
              { ID := makeID ["http://x/a.bin"], CreatedAt := 1, Status := "done",
                Files := [⟨"http://x/a.bin", "done", "downloads/1-a.bin", ""⟩,
                          ⟨"http://x/b.bin", "done", "downloads/2-b.bin", ""⟩] })]
          ⟨"POST", some ["http://x/a.bin"]⟩ 2).1
        ⟨"POST", some ["http://x/a.bin"]⟩ 3).1.get (makeID ["http://x/a.bin"])).map
        (fun t => t.Files.length) ≠ some ["http://x/a.bin"].length ∧
      ((handleTasks
        (handleTasks
          (handleTasks [] ⟨"POST", some ["http://x/a", "http://x/b"]⟩ 1).1
          ⟨"POST", some ["http://x/ahttp://x/b"]⟩ 2).1
        ⟨"POST", some ["http://x/ahttp://x/b"]⟩ 3).1.get (makeID ["http://x/ahttp://x/b"])).map
        (fun t => t.Files.length) = some 2 ∧
      ((handleTasks
        (handleTasks
          (handleTasks [] ⟨"POST", some ["http://x/a", "http://x/b"]⟩ 1).1
          ⟨"POST", some ["http://x/ahttp://x/b"]⟩ 2).1
        ⟨"POST", some ["http://x/ahttp://x/b"]⟩ 3).1.get (makeID ["http://x/ahttp://x/b"])).map
        (fun t => t.Files.length) ≠ some ["http://x/ahttp://x/b"].length := by
  decide

/-- C4, amended: for every registry (a map: distinct keys) and every non-empty list of
URLs, the second submission leaves the registry as the first left it and gets the same
answer, 202 with makeID(urls); the registry then has exactly one entry under that id; when
the id was absent before the first submission the task has one pending file per URL, in
order, so exactly len(urls) files; when it was present the task stored there is kept as
it was. -/
theorem create_idempotent (tasks : Registry) (urls : List String) (now now' : Nat)
    (hu : urls ≠ []) (hn : tasks.keys.Nodup) :
    handleTasks (handleTasks tasks ⟨"POST", some urls⟩ now).1 ⟨"POST", some urls⟩ now'
        = handleTasks tasks ⟨"POST", some urls⟩ now ∧
      (handleTasks tasks ⟨"POST", some urls⟩ now).2 = ⟨202, some ("id", makeID urls)⟩ ∧
      (handleTasks tasks ⟨"POST", some urls⟩ now).1.keys.count (makeID urls) = 1 ∧
      (handleTasks tasks ⟨"POST", some urls⟩ now).1.keys.Nodup ∧
      (tasks.get (makeID urls) = none →
        (handleTasks tasks ⟨"POST", some urls⟩ now).1.get (makeID urls) = some
          { ID := makeID urls, CreatedAt := now, Status := "pending",
            Files := urls.map fun u =>
              { URL := u, Status := "pending", Path := "", Error := "" } } ∧
        ∀ t, (handleTasks tasks ⟨"POST", some urls⟩ now).1.get (makeID urls) = some t →
          t.Files.length = urls.length) ∧
      (∀ t0, tasks.get (makeID urls) = some t0 →
        (handleTasks tasks ⟨"POST", some urls⟩ now).1 = tasks ∧
        (handleTasks tasks ⟨"POST", some urls⟩ now).1.get (makeID urls) = some t0) := by
  cases h : tasks.get (makeID urls) with
  | some t0 =>
    have h1 := handleTasks_post_old tasks urls now t0 hu h
    have h2 := handleTasks_post_old tasks urls now' t0 hu h
    have hmem : makeID urls ∈ tasks.keys := by
      by_contra hc
      rw [(Registry.get_none_iff _ _).2 hc] at h
      cases h
    refine ⟨?_, ?_, ?_, ?_, ?_, ?_⟩
    · rw [h1, h2]
    · rw [h1]
    · rw [h1]; exact List.count_eq_one_of_mem hn hmem
    · rw [h1]; exact hn
    · intro hc; cases hc
    · intro t1 ht1
      rw [h1]
      exact ⟨rfl, by rw [h, ht1]⟩
  | none =>
    have h1 := handleTasks_post_new tasks urls now hu h
    have hg : Registry.get (tasks ++ [(makeID urls, newTask urls now)]) (makeID urls)
        = some (newTask urls now) := by
      rw [Registry.get_append_single, h]; simp
    have hN := Registry.nodup_append_single tasks (makeID urls) (newTask urls now) hn h
    have hmem : makeID urls ∈ Registry.keys (tasks ++ [(makeID urls, newTask urls now)]) := by
      simp [Registry.keys]
    refine ⟨?_, ?_, ?_, ?_, ?_, ?_⟩
    · rw [h1]
      exact handleTasks_post_old _ urls now' _ hu hg
    · rw [h1]
    · rw [h1]; exact List.count_eq_one_of_mem hN hmem
    · rw [h1]; exact hN
    · intro _
      rw [h1]
      refine ⟨by rw [hg]; simp [newTask, pendingFile], ?_⟩
      intro t ht
      rw [hg] at ht
      cases ht
      simp [newTask]
    · intro t0 ht0; cases ht0

/-- Witness of C4 as amended: two submissions of the same two URLs to the empty
registry. -/
theorem create_idempotent_witness :
    ["http://x/a.bin", "http://x/b.bin"] ≠ [] ∧ (Registry.keys []).Nodup ∧
      handleTasks (handleTasks [] ⟨"POST", some ["http://x/a.bin", "http://x/b.bin"]⟩ 1).1
          ⟨"POST", some ["http://x/a.bin", "http://x/b.bin"]⟩ 2
        = handleTasks [] ⟨"POST", some ["http://x/a.bin", "http://x/b.bin"]⟩ 1 :=
  ⟨by decide, List.nodup_nil,
   (create_idempotent [] ["http://x/a.bin", "http://x/b.bin"] 1 2 (by decide) List.nodup_nil).1⟩


/-- C7: start from the registry that loadSnapshot returns for any snapshot file (the empty
registry when there is no file or it does not decode) with the worker idle; after any
sequence of requests, worker steps and restarts, at most one file over all tasks has Status
running, and none has while the worker is between two files. -/
theorem single_flight (snap : Snapshot) (r : Registry × Option String)
    (hload : loadSnapshot [] snap = some r) (ops : List Op) (s : State)
    (h : run { tasks := r.1, inflight := none } ops = some s) :
    runningCount s.tasks ≤ 1 ∧ (s.inflight = none → runningCount s.tasks = 0) := by
  have h0 : SingleFlight { tasks := r.1, inflight := none } := by
    refine ⟨?_, ?_, ?_⟩
    · intro k i hki; simp at hki
    · intro _; exact runningCount_loadSnapshot snap r hload
    · intro hn; simp at hn
  obtain ⟨_, h1, h2⟩ := SingleFlight_run _ _ ops h0 h
  refine ⟨?_, h1⟩
  cases hi : s.inflight with
  | none => rw [h1 hi]; exact Nat.zero_le 1
  | some p => rw [h2 (by rw [hi]; simp)]

set_option maxRecDepth 1000000 in
/-- Witness of C7: a snapshot with two running files is loaded, a task is created, and the
worker has marked one file running. -/
theorem single_flight_witness :
    (loadSnapshot []
        (.parsed
          [("k1", some { ID := "k1", CreatedAt := 5, Status := "running",
                         Files := [⟨"http://x/a", "running", "", ""⟩,
                                   ⟨"http://x/b", "running", "", ""⟩] })])
      = some
        ([("k1", { ID := "k1", CreatedAt := 5, Status := "pending",
                   Files := [⟨"http://x/a", "pending", "", ""⟩,
                             ⟨"http://x/b", "pending", "", ""⟩] })], none) ∧
      run { tasks := [("k1", { ID := "k1", CreatedAt := 5, Status := "pending",
                               Files := [⟨"http://x/a", "pending", "", ""⟩,
                                         ⟨"http://x/b", "pending", "", ""⟩] })],
            inflight := none }
        [.request ⟨"POST", some ["http://x/c"]⟩ 8, .mark "k1" 1]
      = some
        { tasks :=
            [("k1", { ID := "k1", CreatedAt := 5, Status := "running",
                      Files := [⟨"http://x/a", "pending", "", ""⟩,
                                ⟨"http://x/b", "running", "", ""⟩] }),
             (makeID ["http://x/c"],
                { ID := makeID ["http://x/c"], CreatedAt := 8, Status := "pending",
                  Files := [⟨"http://x/c", "pending", "", ""⟩] })],
          inflight := some ("k1", 1) }) ∧
      runningCount
          [("k1", { ID := "k1", CreatedAt := 5, Status := "running",
                    Files := [⟨"http://x/a", "pending", "", ""⟩,
                              ⟨"http://x/b", "running", "", ""⟩] }),
           (makeID ["http://x/c"],
              { ID := makeID ["http://x/c"], CreatedAt := 8, Status := "pending",
                Files := [⟨"http://x/c", "pending", "", ""⟩] })] ≤ 1 :=
  (fun h => ⟨h, (single_flight _ _ h.1 _ _ h.2).1⟩) (by decide)


/-- C10: take a registry without a running file, any outcomes of the downloads, and a pass
of the worker over the tasks of the map in any order, no request being handled meanwhile.
Every file that was pending at the start ends done with the returned path when its own
download returned no error, and failed with the message when it returned one, whatever the
other downloads returned; it is left neither pending nor running, and the pass ends without
a running file. -/
theorem worker_pass_settles_pending (outcomes : String → Nat → Outcome)
    (taskList : List String) (tasks : Registry) (hl : taskList.Perm tasks.keys)
    (hidle : runningCount tasks = 0) (k : String) (t : Task) (j : Nat) (f : File)
    (hg : tasks.get k = some t) (hf : t.Files[j]? = some f) (hp : f.Status = "pending") :
    runningCount (workerPass outcomes taskList tasks) = 0 ∧
      ∃ t' f', (workerPass outcomes taskList tasks).get k = some t' ∧
        t'.Files[j]? = some f' ∧ f'.URL = f.URL ∧
        ((outcomes k j).err = none → f'.Status = "done" ∧ f'.Path = (outcomes k j).path) ∧
        (∀ e, (outcomes k j).err = some e → f'.Status = "failed" ∧ f'.Error = e) ∧
        f'.Status ≠ "pending" ∧ f'.Status ≠ "running" := by
  refine ⟨by rw [runningCount_workerPass]; exact hidle, ?_⟩
  have hk : k ∈ taskList := by
    apply hl.mem_iff.2
    by_contra hc
    rw [(Registry.get_none_iff _ _).2 hc] at hg
    cases hg
  obtain ⟨t', hg', hf'⟩ := workerPass_file outcomes taskList tasks k t j f hg hf
  rw [if_pos hk] at hf'
  refine ⟨t', settle f (outcomes k j), hg', hf', ?_⟩
  cases he : (outcomes k j).err with
  | none => simp [settle, hp, he]
  | some e => simp [settle, hp, he]

set_option maxRecDepth 1000000 in
/-- Witness of C10: two tasks, visited in the order opposite to the map; the first
download of the first task fails, the second file of that task is still downloaded. -/
theorem worker_pass_settles_pending_witness :
    List.Perm ["k2", "k1"]
        (Registry.keys
          [("k1", { ID := "k1", CreatedAt := 1, Status := "pending",
                    Files := [⟨"http://x/a", "pending", "", ""⟩,
                              ⟨"http://x/b", "pending", "", ""⟩] }),
           ("k2", { ID := "k2", CreatedAt := 2, Status := "pending",
                    Files := [⟨"http://x/c", "pending", "", ""⟩] })]) ∧
      workerPass
          (fun _ i => if i = 0 then ⟨"", some "404 Not Found"⟩ else ⟨"downloads/1-b", none⟩)
          ["k2", "k1"]
          [("k1", { ID := "k1", CreatedAt := 1, Status := "pending",
                    Files := [⟨"http://x/a", "pending", "", ""⟩,
                              ⟨"http://x/b", "pending", "", ""⟩] }),
           ("k2", { ID := "k2", CreatedAt := 2, Status := "pending",
                    Files := [⟨"http://x/c", "pending", "", ""⟩] })]
        = [("k1", { ID := "k1", CreatedAt := 1, Status := "running",
                    Files := [⟨"http://x/a", "failed", "", "404 Not Found"⟩,
                              ⟨"http://x/b", "done", "downloads/1-b", ""⟩] }),
           ("k2", { ID := "k2", CreatedAt := 2, Status := "running",
                    Files := [⟨"http://x/c", "failed", "", "404 Not Found"⟩] })] ∧
      runningCount
          (workerPass
            (fun _ i => if i = 0 then ⟨"", some "404 Not Found"⟩ else ⟨"downloads/1-b", none⟩)
            ["k2", "k1"]
            [("k1", { ID := "k1", CreatedAt := 1, Status := "pending",
                      Files := [⟨"http://x/a", "pending", "", ""⟩,
                                ⟨"http://x/b", "pending", "", ""⟩] }),
             ("k2", { ID := "k2", CreatedAt := 2, Status := "pending",
                      Files := [⟨"http://x/c", "pending", "", ""⟩] })]) = 0 :=
  ⟨List.Perm.swap _ _ _, by decide,
   (worker_pass_settles_pending
      (fun _ i => if i = 0 then ⟨"", some "404 Not Found"⟩ else ⟨"downloads/1-b", none⟩)
      ["k2", "k1"]
      [("k1", { ID := "k1", CreatedAt := 1, Status := "pending",
                Files := [⟨"http://x/a", "pending", "", ""⟩,
                          ⟨"http://x/b", "pending", "", ""⟩] }),
       ("k2", { ID := "k2", CreatedAt := 2, Status := "pending",
                Files := [⟨"http://x/c", "pending", "", ""⟩] })]
      (List.Perm.swap _ _ _) (by decide) "k1"
      { ID := "k1", CreatedAt := 1, Status := "pending",
        Files := [⟨"http://x/a", "pending", "", ""⟩, ⟨"http://x/b", "pending", "", ""⟩] }
      1 ⟨"http://x/b", "pending", "", ""⟩ (by simp [Registry.get]) rfl rfl).1⟩

end TaskSvc
